import Mathlib

/-!
# LC-3 emulator (`src/lc3.c`): shallow embedding and verified properties

Machine words (`u_int16_t`) are natural numbers; every conversion to a 16-bit
word that the C code performs (assignment to a `u_int16_t` object, passing a
`u_int16_t` argument) is written `w16`.  The register file `reg[R_COUNT]` and
the array `memory[MEM_SIZE]` are functions from indices to words.  Standard
input is given by the bytes pending on its descriptor, the bytes that stdio has
already taken into the stream buffer, and whether the stream is at its end once
these are used up; standard output is the list of bytes written so far.
-/

namespace LC3

/-! ## Constants of `lc3.c` -/

abbrev MEM_SIZE : Nat := 1 <<< 16

abbrev R_R0 : Nat := 0
abbrev R_R1 : Nat := 1
abbrev R_R2 : Nat := 2
abbrev R_R3 : Nat := 3
abbrev R_R4 : Nat := 4
abbrev R_R5 : Nat := 5
abbrev R_R6 : Nat := 6
abbrev R_R7 : Nat := 7
abbrev R_PC : Nat := 8
abbrev R_COND : Nat := 9
abbrev R_COUNT : Nat := 10

abbrev TRAP_GETC : Nat := 0x20
abbrev TRAP_OUT : Nat := 0x21
abbrev TRAP_PUTS : Nat := 0x22
abbrev TRAP_IN : Nat := 0x23
abbrev TRAP_PUTSP : Nat := 0x24
abbrev TRAP_HALT : Nat := 0x25

abbrev OP_BR : Nat := 0
abbrev OP_ADD : Nat := 1
abbrev OP_LD : Nat := 2
abbrev OP_ST : Nat := 3
abbrev OP_JSR : Nat := 4
abbrev OP_AND : Nat := 5
abbrev OP_LDR : Nat := 6
abbrev OP_STR : Nat := 7
abbrev OP_RTI : Nat := 8
abbrev OP_NOT : Nat := 9
abbrev OP_LDI : Nat := 10
abbrev OP_STI : Nat := 11
abbrev OP_JMP : Nat := 12
abbrev OP_RES : Nat := 13
abbrev OP_LEA : Nat := 14
abbrev OP_TRAP : Nat := 15

abbrev FL_POS : Nat := 1 <<< 0
abbrev FL_ZRO : Nat := 1 <<< 1
abbrev FL_NEG : Nat := 1 <<< 2

abbrev KBSR : Nat := 0xFE00
abbrev KBDR : Nat := 0xFE02

abbrev PC_START : Nat := 0x3000

/-! ## Machine words and the machine state -/

/-- Conversion of an integer value to `u_int16_t`. -/
def w16 (n : Nat) : Nat := n % 65536

/-- The globals `reg` and `memory`, the local `running` of `main`, and the two
standard streams.  For stdin, `input` holds the bytes pending on the file
descriptor (what `select` sees), `buffered` the bytes that stdio has read from
the descriptor into the stream buffer and not yet handed out (what `getchar`
sees first), and `eof` tells whether the stream is at end of file once the
pending bytes are used up.  `output` holds the bytes written to stdout so far. -/
structure State where
  reg : Nat → Nat
  memory : Nat → Nat
  input : List Nat
  buffered : List Nat
  eof : Bool
  output : List Nat
  running : Bool

/-- Ways in which one cycle of the loop fails to produce a next state: the
`default` branch calls `abort ()`, a string trap reads past the end of `memory`,
or `getchar ()` waits for a byte that is not pending. -/
inductive Stuck where
  | aborted
  | outOfRange
  | awaitingInput
  deriving DecidableEq, Repr

/-- Array store `a[i] = v` into an array of `u_int16_t`. -/
def store (a : Nat → Nat) (i v : Nat) : Nat → Nat :=
  fun j => if j = i then w16 v else a j

/-- The assignment `reg[r] = v`. -/
def setReg (s : State) (r v : Nat) : State :=
  { s with reg := store s.reg r v }

/-- The call `putc(c, stdout)`: the argument is written as an `unsigned char`. -/
def putc (s : State) (c : Nat) : State :=
  { s with output := s.output ++ [c % 256] }

/-- Value of `(u_int16_t)c` for a `char c` holding the byte `b`, `char` being
signed (bytes from 128 up are negative and convert to `0xFF80 .. 0xFFFF`). -/
def char_to_u16 (b : Nat) : Nat :=
  if b % 256 < 128 then b % 256 else w16 (b % 256 + 0xFF00)

/-! ## Functions of `lc3.c` -/

/-- Embedding of `sign_extended (x, bit_count)`.  The constant `0xffff` is an
`int`, so the shifted mask is wider than 16 bits and the result is cut back to
16 bits by the assignment to `x`. -/
def sign_extended (x : Nat) (bit_count : Nat) : Nat :=
  if (x >>> (bit_count - 1)) &&& 1 ≠ 0 then
    w16 (x ||| (0xffff <<< bit_count))
  else
    x

/-- Embedding of `update_flag (r)`. -/
def update_flag (s : State) (r : Nat) : State :=
  let r := w16 r
  if s.reg r = 0 then
    setReg s R_COND FL_ZRO
  else if s.reg r >>> 15 ≠ 0 then
    setReg s R_COND FL_NEG
  else
    setReg s R_COND FL_POS

/-- The value `EOF` of `<stdio.h>`, the `int` -1, as a 32-bit pattern: its
conversion to `u_int16_t` is `0xFFFF`, its conversion to `unsigned char` is
`0xFF`. -/
abbrev EOF : Nat := 0xFFFFFFFF

/-- Embedding of `check_key ()`: `select` with a zero timeout reports the
descriptor of stdin readable when bytes are pending on it or when it is at end
of file.  The bytes in the stream buffer of stdio are not seen by `select`. -/
def check_key (s : State) : Nat :=
  if s.input ≠ [] ∨ s.eof = true then 1 else 0

/-- The call `getchar ()`, with the stream buffering that stdin has by default
(the program never calls `setvbuf`): the value returned and the state after the
call, or `none` when the call waits for input that is not pending.  A byte in
the stream buffer is handed out first.  With an empty buffer stdio reads from
the descriptor: the read takes the pending bytes into the buffer (they are taken
to fit into it) and the first of them is returned; at end of file `EOF` is
returned. -/
def getchar (s : State) : Option (Nat × State) :=
  match s.buffered with
  | c :: rest => some (c % 256, { s with buffered := rest })
  | [] =>
    match s.input with
    | c :: rest => some (c % 256, { s with input := [], buffered := rest })
    | [] => if s.eof = true then some (EOF, s) else none

/-- Embedding of `mem_read (address)`: the value read and the state after the
keyboard poll that a read of `KBSR` performs.  When `check_key ()` is non-zero
the call of `getchar ()` returns (see `getchar_of_check_key`), so the last branch
of the `match` is never taken. -/
def mem_read (s : State) (address : Nat) : Nat × State :=
  let address := w16 address
  let s1 : State :=
    if address = KBSR then
      if check_key s ≠ 0 then
        let s2 : State := { s with memory := store s.memory KBSR (1 <<< 15) }
        match getchar s2 with
        | some (c, s3) => { s3 with memory := store s3.memory KBDR c }
        | none => s2
      else
        { s with memory := store s.memory KBSR 0 }
    else s
  (s1.memory address, s1)

/-- Embedding of `mem_write (addr, val)`. -/
def mem_write (s : State) (addr val : Nat) : State :=
  { s with memory := store s.memory (w16 addr) val }

/-! ## The cases of the `switch` in `main` -/

/-- Body of `case OP_ADD`. -/
def op_add (instr : Nat) (s : State) : State :=
  let r0 := (instr >>> 9) &&& 0x7
  let r1 := (instr >>> 6) &&& 0x7
  let imm_flag := (instr >>> 5) &&& 0x1
  let s1 :=
    if imm_flag ≠ 0 then
      let imm5 := sign_extended (instr &&& 0x1F) 5
      setReg s r0 (s.reg r1 + imm5)
    else
      let r2 := instr &&& 0x7
      setReg s r0 (s.reg r1 + s.reg r2)
  update_flag s1 r0

/-- Body of `case OP_AND`. -/
def op_and (instr : Nat) (s : State) : State :=
  let r0 := (instr >>> 9) &&& 0x7
  let r1 := (instr >>> 6) &&& 0x7
  let imm_flag := (instr >>> 5) &&& 0x1
  let s1 :=
    if imm_flag ≠ 0 then
      let imm5 := sign_extended (instr &&& 0x1F) 5
      setReg s r0 (s.reg r1 &&& imm5)
    else
      let r2 := instr &&& 0x7
      setReg s r0 (s.reg r1 &&& s.reg r2)
  update_flag s1 r0

/-- Body of `case OP_NOT`: `~reg[r1]` on a promoted 16-bit operand, cut back to
16 bits by the assignment, is the complement within 16 bits. -/
def op_not (instr : Nat) (s : State) : State :=
  let r0 := (instr >>> 9) &&& 0x7
  let r1 := (instr >>> 6) &&& 0x7
  update_flag (setReg s r0 (0xFFFF ^^^ s.reg r1)) r0

/-- Body of `case OP_BR`. -/
def op_br (instr : Nat) (s : State) : State :=
  let cond := (instr >>> 9) &&& 0x7
  let addr_off := sign_extended (instr &&& 0x1FF) 9
  if cond &&& s.reg R_COND ≠ 0 then
    setReg s R_PC (s.reg R_PC + addr_off)
  else s

/-- Body of `case OP_JMP`. -/
def op_jmp (instr : Nat) (s : State) : State :=
  let r1 := (instr >>> 6) &&& 0x7
  setReg s R_PC (s.reg r1)

/-- Body of `case OP_JSR`. -/
def op_jsr (instr : Nat) (s : State) : State :=
  let f := (instr >>> 11) &&& 0x1
  let s1 := setReg s R_R7 (s.reg R_PC)
  if f ≠ 0 then
    let addr_off := sign_extended (instr &&& 0x7FF) 11
    setReg s1 R_PC (s1.reg R_PC + addr_off)
  else
    let r1 := (instr >>> 6) &&& 0x7
    setReg s1 R_PC (s1.reg r1)

/-- Body of `case OP_LD`. -/
def op_ld (instr : Nat) (s : State) : State :=
  let r0 := (instr >>> 9) &&& 0x7
  let off := sign_extended (instr &&& 0x1ff) 9
  let rd := mem_read s (s.reg R_PC + off)
  update_flag (setReg rd.2 r0 rd.1) r0

/-- Body of `case OP_LDI`. -/
def op_ldi (instr : Nat) (s : State) : State :=
  let r0 := (instr >>> 9) &&& 0x7
  let pc_offset := sign_extended (instr &&& 0x1FF) 9
  let inner := mem_read s (s.reg R_PC + pc_offset)
  let outer := mem_read inner.2 inner.1
  update_flag (setReg outer.2 r0 outer.1) r0

/-- Body of `case OP_LDR`. -/
def op_ldr (instr : Nat) (s : State) : State :=
  let r0 := (instr >>> 9) &&& 0x7
  let r1 := (instr >>> 6) &&& 0x7
  let off := sign_extended (instr &&& 0x3F) 6
  let rd := mem_read s (s.reg r1 + off)
  update_flag (setReg rd.2 r0 rd.1) r0

/-- Body of `case OP_LEA`. -/
def op_lea (instr : Nat) (s : State) : State :=
  let r0 := (instr >>> 9) &&& 0x7
  let off := sign_extended (instr &&& 0x1ff) 9
  update_flag (setReg s r0 (s.reg R_PC + off)) r0

/-- Body of `case OP_ST`. -/
def op_st (instr : Nat) (s : State) : State :=
  let r0 := (instr >>> 9) &&& 0x7
  let off := sign_extended (instr &&& 0x1ff) 9
  mem_write s (s.reg R_PC + off) (s.reg r0)

/-- Body of `case OP_STI`. -/
def op_sti (instr : Nat) (s : State) : State :=
  let r0 := (instr >>> 9) &&& 0x7
  let off := sign_extended (instr &&& 0x1ff) 9
  let rd := mem_read s (s.reg R_PC + off)
  mem_write rd.2 rd.1 (rd.2.reg r0)

/-- Body of `case OP_STR`. -/
def op_str (instr : Nat) (s : State) : State :=
  let r0 := (instr >>> 9) &&& 0x7
  let r1 := (instr >>> 6) &&& 0x7
  let off := sign_extended (instr &&& 0x3f) 6
  mem_write s (s.reg r1 + off) (s.reg r0)

/-! ## The trap routines -/

/-- The loop of `case TRAP_PUTS`, `while (*c) { putc ((char)*c, stdout); ++c; }`,
with the pointer `c` held as an index into `memory`.  The first argument counts
the words of `memory` from `c` to the end of the array: when none is left, `*c`
is a read outside the array. -/
def puts_loop (memory : Nat → Nat) : Nat → Nat → List Nat → Except Stuck (List Nat)
  | 0, _, _ => .error .outOfRange
  | left + 1, c, out =>
    if memory c ≠ 0 then
      puts_loop memory left (c + 1) (out ++ [memory c % 256])
    else
      .ok out

/-- The loop of `case TRAP_PUTSP`, with the same conventions as `puts_loop`. -/
def putsp_loop (memory : Nat → Nat) : Nat → Nat → List Nat → Except Stuck (List Nat)
  | 0, _, _ => .error .outOfRange
  | left + 1, c, out =>
    if memory c ≠ 0 then
      let c1 := (memory c &&& 0xff) % 256
      let c2 := (memory c >>> 8) % 256
      let out1 := out ++ [c1]
      let out2 := if c2 ≠ 0 then out1 ++ [c2] else out1
      putsp_loop memory left (c + 1) out2
    else
      .ok out

/-- Bytes of the string that `puts ("HALT")` writes. -/
def haltBanner : List Nat := [72, 65, 76, 84, 10]

/-- Bytes of the string `"Enter a character: "`. -/
def inPrompt : List Nat :=
  [69, 110, 116, 101, 114, 32, 97, 32, 99, 104, 97, 114, 97, 99, 116, 101, 114, 58, 32]

/-- Body of `case OP_TRAP`.  A `getchar ()` that waits for input that is not
pending does not return. -/
def op_trap (instr : Nat) (s : State) : Except Stuck State :=
  let s := setReg s R_R7 (s.reg R_PC)
  let vect := instr &&& 0xff
  if vect = TRAP_GETC then
    match getchar s with
    | none => .error .awaitingInput
    | some (c, s1) => .ok (update_flag (setReg s1 R_R0 c) R_R0)
  else if vect = TRAP_OUT then
    .ok (putc s (s.reg R_R0))
  else if vect = TRAP_PUTS then
    match puts_loop s.memory (MEM_SIZE - s.reg R_R0) (s.reg R_R0) s.output with
    | .ok out => .ok { s with output := out }
    | .error e => .error e
  else if vect = TRAP_IN then
    let s := { s with output := s.output ++ inPrompt }
    match getchar s with
    | none => .error .awaitingInput
    | some (c, s1) =>
      let s2 := putc s1 c
      .ok (update_flag (setReg s2 R_R0 (char_to_u16 c)) R_R0)
  else if vect = TRAP_PUTSP then
    match putsp_loop s.memory (MEM_SIZE - s.reg R_R0) (s.reg R_R0) s.output with
    | .ok out => .ok { s with output := out }
    | .error e => .error e
  else if vect = TRAP_HALT then
    .ok { s with output := s.output ++ haltBanner, running := false }
  else
    .ok s

/-! ## The execution loop -/

/-- The fetch `u_int16_t instr = mem_read (reg[R_PC]++)`: the instruction word
and the state after the increment and the read. -/
def fetch (s : State) : Nat × State :=
  let rd := mem_read (setReg s R_PC (s.reg R_PC + 1)) (s.reg R_PC)
  (w16 rd.1, rd.2)

/-- The dispatch `switch (op)` on `op = instr >> 12`. -/
def execute (instr : Nat) (s : State) : Except Stuck State :=
  let op := instr >>> 12
  if op = OP_ADD then .ok (op_add instr s)
  else if op = OP_AND then .ok (op_and instr s)
  else if op = OP_NOT then .ok (op_not instr s)
  else if op = OP_BR then .ok (op_br instr s)
  else if op = OP_JMP then .ok (op_jmp instr s)
  else if op = OP_JSR then .ok (op_jsr instr s)
  else if op = OP_LD then .ok (op_ld instr s)
  else if op = OP_LDI then .ok (op_ldi instr s)
  else if op = OP_LDR then .ok (op_ldr instr s)
  else if op = OP_LEA then .ok (op_lea instr s)
  else if op = OP_ST then .ok (op_st instr s)
  else if op = OP_STI then .ok (op_sti instr s)
  else if op = OP_STR then .ok (op_str instr s)
  else if op = OP_TRAP then op_trap instr s
  else if op = OP_RES then .ok s
  else if op = OP_RTI then .ok s
  else .error .aborted

/-- One iteration of the body of `while (running)`. -/
def step (s : State) : Except Stuck State :=
  execute (fetch s).1 (fetch s).2

/-- How a run of the loop ends: it leaves the loop after some number of cycles,
a cycle gets stuck, or the given number of cycles did not suffice. -/
inductive Run where
  | halted (cycles : Nat) (s : State)
  | stuck (cycles : Nat) (e : Stuck)
  | outOfFuel

/-- The loop `while (running) { ... }`, bounded by `fuel` cycles; `cycles` counts
the iterations done so far. -/
def loop : Nat → Nat → State → Run
  | fuel, cycles, s =>
    if s.running = false then .halted cycles s
    else
      match fuel with
      | 0 => .outOfFuel
      | fuel + 1 =>
        match step s with
        | .ok s1 => loop fuel (cycles + 1) s1
        | .error e => .stuck cycles e

/-- State in which `main` enters the loop: the registers are zero-initialised
globals, then `reg[R_COND] = FL_ZRO`, `reg[R_PC] = PC_START`, `running = 1`;
`image` is the content of `memory` after the image files have been read.
Nothing has been read from stdin yet: `input` is pending on an open stream. -/
def initState (image : Nat → Nat) (input : List Nat) : State :=
  let s : State :=
    { reg := fun _ => 0, memory := image, input := input, buffered := [], eof := false,
      output := [], running := true }
  setReg (setReg s R_COND FL_ZRO) R_PC PC_START

/-- Every register and every memory word is a 16-bit value and every input byte,
pending or buffered, is a byte: what the C types guarantee. -/
def WF (s : State) : Prop :=
  (∀ r, r < R_COUNT → s.reg r < 65536) ∧ (∀ a, a < MEM_SIZE → s.memory a < 65536) ∧
    (∀ b ∈ s.input, b < 256) ∧ ∀ b ∈ s.buffered, b < 256

/-- Two's-complement value of the `bits`-bit pattern `x`. -/
def signedValue (bits : Nat) (x : Nat) : Int :=
  if x < 2 ^ (bits - 1) then (x : Int) else (x : Int) - 2 ^ bits

/-- Memory image given by finitely many (address, word) pairs, zero elsewhere. -/
def imageOf (cells : List (Nat × Nat)) : Nat → Nat :=
  fun a => ((cells.find? (fun c => c.1 = a)).map Prod.snd).getD 0

/-- The entry state with `ADD R2, R1, #-3` at `PC_START` and `R1 = 5`. -/
def addImmState : State :=
  setReg (initState (imageOf [(0x3000, 0x147D)]) []) R_R1 5

/-- The entry state with `LDI R3, #1` at `PC_START`; the word after the next
instruction points to `0x4000`, which holds `0x1234`. -/
def ldiState : State :=
  initState (imageOf [(0x3000, 0xA601), (0x3002, 0x4000), (0x4000, 0x1234)]) []

/-- Memory image with `TRAP HALT` at `PC_START`. -/
def haltImage : Nat → Nat := imageOf [(0x3000, 0xF025)]

/-- The entry state with `TRAP PUTS` at `PC_START`, `R0 = 0x4000` and the words
`0x0041, 0x0042, 0x0000` from `0x4000` on. -/
def putsState : State :=
  setReg (initState (imageOf [(0x3000, 0xF022), (0x4000, 0x0041), (0x4001, 0x0042)]) [])
    R_R0 0x4000

/-- The entry state (`COND = ZERO`) with `BRz #5` at `PC_START`. -/
def brState : State :=
  initState (imageOf [(0x3000, 0x0405)]) []

/-- The entry state with `JSR #-2` at `PC_START`. -/
def jsrState : State :=
  initState (imageOf [(0x3000, 0x4FFE)]) []

/-- The entry state with `TRAP GETC` at `PC_START` and the byte `'a'` pending on
stdin. -/
def getcState : State :=
  initState (imageOf [(0x3000, 0xF020)]) [0x61]

/-- The entry state with `TRAP OUT` at `PC_START`. -/
def outState : State :=
  initState (imageOf [(0x3000, 0xF021)]) []

/-- Embedding of `swap16 (x)`: the operands are promoted to `int`, the result is
converted back to `u_int16_t`. -/
def swap16 (x : Nat) : Nat := w16 ((x <<< 8) ||| (x >>> 8))

/-- The items that `fread (p, sizeof (u_int16_t), count, file)` delivers from the
bytes left in the file: at most `count` complete two-byte items, each in the
byte order of the host, which is little-endian. -/
def fread16 : Nat → List Nat → List Nat
  | count + 1, b0 :: b1 :: rest => (b0 % 256 + 256 * (b1 % 256)) :: fread16 count rest
  | _, _ => []

/-- The stores that `fread` performs: the items go to `p[0], p[1], ...`. -/
def fread_store (memory : Nat → Nat) : Nat → List Nat → Nat → Nat
  | _, [] => memory
  | p, item :: items => fread_store (store memory p item) (p + 1) items

/-- The loop `while (read-- > 0) { *p = swap16 (*p); ++p; }`. -/
def swap_loop (memory : Nat → Nat) : Nat → Nat → Nat → Nat
  | 0, _ => memory
  | read + 1, p => swap_loop (store memory p (swap16 (memory p))) read (p + 1)

/-- Embedding of `read_image_file (file)`, the file given by the bytes that are
left to read.  A file too short for the origin word leaves `origin`
uninitialised; no result is given for it. -/
def read_image_file (memory : Nat → Nat) (file : List Nat) : Option (Nat → Nat) :=
  match fread16 1 file with
  | [raw] =>
    let origin := swap16 raw
    let max_size := w16 (MEM_SIZE - origin)
    let items := fread16 max_size (file.drop 2)
    let read := items.length
    some (swap_loop (fread_store memory origin items) read origin)
  | _ => none

/-- The two bytes of a 16-bit word in big-endian order. -/
def bigEndian (w : Nat) : List Nat := [w / 256 % 256, w % 256]

/-- The bytes of an image file with the given origin and payload words. -/
def imageFile (origin : Nat) (words : List Nat) : List Nat :=
  bigEndian origin ++ words.flatMap bigEndian

/-- States that the loop can be in: the state in which `main` enters the loop, for
any memory image and any input, on a stream that stays open or that ends after
the input, and every state that a cycle produces from one of them. -/
inductive Reachable : State → Prop where
  | init (image : Nat → Nat) (input : List Nat) (eof : Bool) :
    Reachable { initState image input with eof := eof }
  | step (s s1 : State) : Reachable s → step s = .ok s1 → Reachable s1

/-- The entry state with `STI R1, #1` at `PC_START`, `R1 = 0xBEEF`, and the pointer
word at `0x3002` holding `0x5000`. -/
def stiState : State :=
  setReg (initState (imageOf [(0x3000, 0xB201), (0x3002, 0x5000)]) []) R_R1 0xBEEF

/-- The entry state over an empty memory with the bytes `'a'`, `'b'` pending on an
open stdin. -/
def kbdState : State :=
  initState (imageOf []) [0x61, 0x62]

/-- Memory image of the program `LDI R0, #2; LDI R1, #1; TRAP HALT; .FILL xFE00`,
which reads the keyboard status register twice. -/
def pollTwiceImage : Nat → Nat :=
  imageOf [(0x3000, 0xA002), (0x3001, 0xA201), (0x3002, 0xF025), (0x3003, 0xFE00)]

/-- The entry state with the reserved instruction word `0xD123` at `PC_START`. -/
def resState : State :=
  initState (imageOf [(0x3000, 0xD123)]) []

/-- The entry state with `TRAP PUTSP` at `PC_START`, `R0 = 0x4000` and the words
`0x4241, 0x0043, 0x0000` from `0x4000` on. -/
def putspState : State :=
  setReg (initState (imageOf [(0x3000, 0xF024), (0x4000, 0x4241), (0x4001, 0x0043)]) [])
    R_R0 0x4000

/-- Memory image of the program `LD R0, #1; TRAP PUTS; .FILL xFFFF`, with a non-zero
word in the last memory cell `0xFFFF`. -/
def runawayImage : Nat → Nat :=
  imageOf [(0x3000, 0x2001), (0x3001, 0xF022), (0x3002, 0xFFFF), (0xFFFF, 0x0041)]

/-- The entry state with `BRnzp #5` at `PC_START`. -/
def brAlwaysState : State :=
  initState (imageOf [(0x3000, 0x0E05)]) []

/-! ## Sign extension -/

theorem two_pow_pred (w : Nat) (hw : 0 < w) : 2 ^ w = 2 * 2 ^ (w - 1) := by
  obtain ⟨k, rfl⟩ : ∃ k, w = k + 1 := ⟨w - 1, by omega⟩
  simp [pow_succ, Nat.mul_comm]

theorem sign_bit_eq (f w : Nat) (hw : 0 < w) (hf : f < 2 ^ w) :
    ((f >>> (w - 1)) &&& 1 ≠ 0) ↔ 2 ^ (w - 1) ≤ f := by
  have hp := two_pow_pred w hw
  have hpos : 0 < 2 ^ (w - 1) := Nat.pos_pow_of_pos _ (by decide)
  rw [Nat.shiftRight_eq_div_pow, Nat.and_one_is_mod]
  have hlt : f / 2 ^ (w - 1) < 2 := by
    rw [Nat.div_lt_iff_lt_mul hpos]; omega
  constructor
  · intro h
    by_contra hc
    rw [Nat.div_eq_of_lt (by omega)] at h
    omega
  · intro h
    have : 0 < f / 2 ^ (w - 1) := Nat.div_pos h hpos
    generalize f / 2 ^ (w - 1) = q at *
    omega

theorem sign_extended_eq (f w : Nat) (hw : 0 < w) (hw16 : w ≤ 16) (hf : f < 2 ^ w) :
    sign_extended f w = if f < 2 ^ (w - 1) then f else f + (65536 - 2 ^ w) := by
  have hb := sign_bit_eq f w hw hf
  have hle : 2 ^ w ≤ 65536 := by
    have : 2 ^ w ≤ 2 ^ 16 := Nat.pow_le_pow_right (by decide) hw16
    simpa using this
  unfold sign_extended
  by_cases h : f < 2 ^ (w - 1)
  · rw [if_neg (by rw [hb]; omega), if_pos h]
  · rw [if_pos (by rw [hb]; omega), if_neg h]
    rw [Nat.lor_comm, Nat.shiftLeft_eq, Nat.mul_comm, ← Nat.mul_add_lt_is_or hf, w16]
    generalize 2 ^ w = p at *
    omega

theorem testBit_top (f w : Nat) (hw : 0 < w) (hf : f < 2 ^ w) :
    f.testBit (w - 1) = decide (2 ^ (w - 1) ≤ f) := by
  have hb := sign_bit_eq f w hw hf
  rw [Nat.shiftRight_eq_div_pow, Nat.and_one_is_mod] at hb
  rw [Nat.testBit_to_div_mod]
  have : f / 2 ^ (w - 1) % 2 < 2 := Nat.mod_lt _ (by decide)
  by_cases h : 2 ^ (w - 1) ≤ f
  · have := hb.2 h
    simp only [h, decide_True, decide_eq_true_eq]; omega
  · have : ¬ (f / 2 ^ (w - 1) % 2 ≠ 0) := fun hc => h (hb.1 hc)
    simp only [h, decide_False, decide_eq_false_iff_not]; omega

/-- C1: for every 16-bit value `v` and every width `w` in {5, 6, 9, 11}, sign-extending
the low `w` bits of `v` and masking the result to `w` bits gives back the low `w`
bits of `v`. -/
theorem sign_extended_mask_roundtrip (v w : Nat) (_hv : v < 65536)
    (hw : w = 5 ∨ w = 6 ∨ w = 9 ∨ w = 11) :
    sign_extended (v &&& (2 ^ w - 1)) w &&& (2 ^ w - 1) = v &&& (2 ^ w - 1) := by
  have hw0 : 0 < w := by omega
  have hw16 : w ≤ 16 := by omega
  have hf : v &&& (2 ^ w - 1) < 2 ^ w := by
    rw [Nat.and_pow_two_sub_one_eq_mod]; exact Nat.mod_lt _ (Nat.pos_pow_of_pos _ (by decide))
  rw [sign_extended_eq _ w hw0 hw16 hf]
  generalize v &&& (2 ^ w - 1) = f at *
  rw [Nat.and_pow_two_sub_one_eq_mod]
  have hp := two_pow_pred w hw0
  have hle : 2 ^ w ≤ 65536 := by
    have : 2 ^ w ≤ 2 ^ 16 := Nat.pow_le_pow_right (by decide) hw16
    simpa using this
  have hdvd : 2 ^ w ∣ 65536 := by
    have : 2 ^ w ∣ 2 ^ 16 := pow_dvd_pow 2 hw16
    simpa using this
  obtain ⟨k, hk⟩ := hdvd
  split
  · exact Nat.mod_eq_of_lt hf
  · have : f + (65536 - 2 ^ w) = f + 2 ^ w * (k - 1) := by
      rw [Nat.mul_sub, ← hk]; simp
    rw [this, Nat.add_mul_mod_self_left]
    exact Nat.mod_eq_of_lt hf

theorem sign_extended_mask_roundtrip_witness :
    (0xABCD < 65536 ∧ (9 = 5 ∨ 9 = 6 ∨ 9 = 9 ∨ 9 = 11)) ∧
      sign_extended (0xABCD &&& (2 ^ 9 - 1)) 9 &&& (2 ^ 9 - 1) = 0xABCD &&& (2 ^ 9 - 1) :=
  ⟨by decide, sign_extended_mask_roundtrip 0xABCD 9 (by decide) (by decide)⟩

/-- C2: for every width `w` in {5, 6, 9, 11} and every field `f < 2^w`,
`sign_extended f w` is a 16-bit word whose low `w` bits are those of `f` and whose
bits `w .. 15` all equal bit `w - 1` of `f`; its 16-bit two's-complement value is
the `w`-bit two's-complement value of `f`. -/
theorem sign_extended_replicates_sign (f w : Nat) (hw : w = 5 ∨ w = 6 ∨ w = 9 ∨ w = 11)
    (hf : f < 2 ^ w) :
    sign_extended f w < 65536 ∧
    (∀ i, i < w → (sign_extended f w).testBit i = f.testBit i) ∧
    (∀ i, w ≤ i → i < 16 → (sign_extended f w).testBit i = f.testBit (w - 1)) ∧
    signedValue 16 (sign_extended f w) = signedValue w f := by
  have hw0 : 0 < w := by omega
  have hw16 : w ≤ 16 := by omega
  have hp := two_pow_pred w hw0
  have hle : 2 ^ w ≤ 65536 := by
    have : 2 ^ w ≤ 2 ^ 16 := Nat.pow_le_pow_right (by decide) hw16
    simpa using this
  have hclosed := sign_extended_eq f w hw0 hw16 hf
  have htop := testBit_top f w hw0 hf
  have hhigh : ∀ i, w ≤ i → f.testBit i = false := fun i hi =>
    Nat.testBit_lt_two_pow (lt_of_lt_of_le hf (Nat.pow_le_pow_right (by decide) hi))
  refine ⟨?_, ?_, ?_, ?_⟩
  · rw [hclosed]; split <;> omega
  · intro i hi
    unfold sign_extended
    split
    · have h16 : (65536 : Nat) = 2 ^ 16 := by norm_num
      rw [w16, h16, Nat.testBit_mod_two_pow, Nat.testBit_or, Nat.testBit_shiftLeft]
      have : ¬ (i ≥ w) := by omega
      have hi16 : i < 16 := by omega
      simp [this, hi16]
    · rfl
  · intro i hi hi16
    unfold sign_extended
    split
    · rename_i hs
      rw [sign_bit_eq f w hw0 hf] at hs
      have h16 : (65536 : Nat) = 2 ^ 16 := by norm_num
      have hff : (65535 : Nat) = 2 ^ 16 - 1 := by norm_num
      rw [w16, h16, Nat.testBit_mod_two_pow, Nat.testBit_or, Nat.testBit_shiftLeft, hff,
        Nat.testBit_two_pow_sub_one, htop, hhigh i hi]
      have : i - w < 16 := by omega
      simp [hi, hi16, hs, this]
    · rename_i hs
      rw [sign_bit_eq f w hw0 hf] at hs
      rw [htop, hhigh i hi]
      simp [hs]
  · rw [hclosed]
    unfold signedValue
    have h15 : (2 : Nat) ^ (16 - 1) = 32768 := by norm_num
    have h16 : (2 : Int) ^ 16 = 65536 := by norm_num
    have hwI : ((2 : Int) ^ w) = ((2 ^ w : Nat) : Int) := by push_cast; rfl
    rw [h15, h16, hwI]
    generalize 2 ^ w = p at *
    generalize 2 ^ (w - 1) = q at *
    by_cases h : f < q
    · rw [if_pos h, if_pos h, if_pos (by omega)]
    · rw [if_neg h, if_neg h, if_neg (by omega)]
      push_cast
      omega

theorem sign_extended_replicates_sign_witness :
    ((5 = 5 ∨ 5 = 6 ∨ 5 = 9 ∨ 5 = 11) ∧ 0b11101 < 2 ^ 5) ∧
      (sign_extended 0b11101 5 < 65536 ∧
      (∀ i, i < 5 → (sign_extended 0b11101 5).testBit i = (0b11101).testBit i) ∧
      (∀ i, 5 ≤ i → i < 16 →
        (sign_extended 0b11101 5).testBit i = (0b11101).testBit (5 - 1)) ∧
      signedValue 16 (sign_extended 0b11101 5) = signedValue 5 0b11101) :=
  ⟨by decide, sign_extended_replicates_sign 0b11101 5 (by decide) (by decide)⟩

/-! ## Basic facts about the state operations -/

theorem w16_lt (n : Nat) : w16 n < 65536 := Nat.mod_lt _ (by decide)

theorem w16_of_lt {n : Nat} (h : n < 65536) : w16 n = n := Nat.mod_eq_of_lt h

theorem field_le_seven (x : Nat) : x &&& 0x7 ≤ 7 := by
  have h : x &&& 7 = x &&& (2 ^ 3 - 1) := rfl
  rw [h, Nat.and_pow_two_sub_one_eq_mod]
  have : x % 2 ^ 3 < 2 ^ 3 := Nat.mod_lt _ (by decide)
  omega

/-- A call of `getchar ()` touches only the input side of the state. -/
theorem getchar_frame (s s1 : State) (c : Nat) (h : getchar s = some (c, s1)) :
    s1.reg = s.reg ∧ s1.memory = s.memory ∧ s1.output = s.output ∧
      s1.running = s.running := by
  unfold getchar at h
  split at h
  · injection h with h
    injection h with _ h
    subst h
    exact ⟨rfl, rfl, rfl, rfl⟩
  · split at h
    · injection h with h
      injection h with _ h
      subst h
      exact ⟨rfl, rfl, rfl, rfl⟩
    · split at h
      · injection h with h
        injection h with _ h
        subst h
        exact ⟨rfl, rfl, rfl, rfl⟩
      · exact absurd h (by simp)

/-- When `check_key ()` is non-zero, `getchar ()` returns. -/
theorem getchar_of_check_key (s : State) (h : check_key s ≠ 0) :
    ∃ c s1, getchar s = some (c, s1) := by
  unfold check_key at h
  unfold getchar
  split
  · exact ⟨_, _, rfl⟩
  · split
    · exact ⟨_, _, rfl⟩
    · rename_i hin
      split
      · exact ⟨_, _, rfl⟩
      · rename_i he
        simp [hin, he] at h

theorem mem_read_frame (s : State) (a : Nat) :
    (mem_read s a).2.reg = s.reg ∧ (mem_read s a).2.output = s.output ∧
      (mem_read s a).2.running = s.running := by
  unfold mem_read
  dsimp only
  split
  · split
    · split
      · rename_i c s3 heq
        obtain ⟨h1, _, h3, h4⟩ := getchar_frame _ _ _ heq
        exact ⟨h1, h3, h4⟩
      · exact ⟨rfl, rfl, rfl⟩
    · exact ⟨rfl, rfl, rfl⟩
  · exact ⟨rfl, rfl, rfl⟩

theorem mem_read_reg (s : State) (a : Nat) : (mem_read s a).2.reg = s.reg :=
  (mem_read_frame s a).1

theorem fetch_reg (s : State) : (fetch s).2.reg = store s.reg R_PC (s.reg R_PC + 1) := by
  unfold fetch
  dsimp only
  rw [mem_read_reg]
  rfl

theorem shift15_ne_zero_iff {v : Nat} (hv : v < 65536) :
    v >>> 15 ≠ 0 ↔ v.testBit 15 = true := by
  rw [Nat.shiftRight_eq_div_pow, Nat.testBit_to_div_mod]
  have : v / 2 ^ 15 < 2 := by
    rw [Nat.div_lt_iff_lt_mul (by decide)]; omega
  generalize v / 2 ^ 15 = q at *
  simp only [decide_eq_true_eq]
  omega

theorem update_flag_reg (s : State) (r : Nat) :
    (update_flag s r).reg = store s.reg R_COND
      (if s.reg (w16 r) = 0 then FL_ZRO else if s.reg (w16 r) >>> 15 ≠ 0 then FL_NEG
        else FL_POS) := by
  unfold update_flag
  dsimp only
  split
  · rfl
  · split <;> rfl

/-- Effect of `reg[r] = x; update_flag (r);` for a general-purpose register `r`:
the register holds the truncated value and `COND` its sign class. -/
theorem update_flag_setReg (s : State) (r x : Nat) (hr : r ≤ 7) :
    (update_flag (setReg s r x) r).reg r = w16 x ∧
    (update_flag (setReg s r x) r).reg R_COND =
      (if w16 x = 0 then FL_ZRO else if (w16 x).testBit 15 = true then FL_NEG else FL_POS) ∧
    ∀ i, i ≠ r → i ≠ R_COND → (update_flag (setReg s r x) r).reg i = s.reg i := by
  have hr16 : w16 r = r := w16_of_lt (by omega)
  have hne : r ≠ R_COND := by simp only [R_COND]; omega
  have hsh := shift15_ne_zero_iff (w16_lt x)
  have hrr : (setReg s r x).reg r = w16 x := by simp [setReg, store]
  rw [update_flag_reg, hr16, hrr]
  refine ⟨?_, ?_, ?_⟩
  · simp only [store, if_neg hne, hrr]
  · simp only [store, if_true]
    by_cases h0 : w16 x = 0
    · simp only [if_pos h0]; rfl
    · simp only [if_neg h0]
      by_cases h15 : (w16 x).testBit 15 = true
      · rw [if_pos (hsh.2 h15), if_pos h15]; rfl
      · rw [if_neg (fun hc => h15 (hsh.1 hc)), if_neg h15]; rfl
  · intro i h1 h2
    simp only [store, setReg, if_neg h1, if_neg h2]

/-- Sign class recorded in `COND` by `reg[r] = x; update_flag (r);`, as the three
exclusive cases on the new register value. -/
theorem cond_classifies (s1 : State) (r : Nat)
    (hc : s1.reg R_COND =
      (if s1.reg r = 0 then FL_ZRO else if (s1.reg r).testBit 15 = true then FL_NEG else FL_POS)) :
    (s1.reg R_COND = FL_NEG ↔ (s1.reg r).testBit 15 = true) ∧
    (s1.reg R_COND = FL_ZRO ↔ s1.reg r = 0) ∧
    (s1.reg R_COND = FL_POS ↔ ((s1.reg r).testBit 15 = false ∧ s1.reg r ≠ 0)) ∧
    ¬ ((s1.reg r).testBit 15 = true ∧ s1.reg r = 0) := by
  rw [hc]
  by_cases h0 : s1.reg r = 0
  · simp [h0, FL_NEG, FL_ZRO, FL_POS]
  · by_cases h15 : (s1.reg r).testBit 15 = true
    · simp [h0, h15, FL_NEG, FL_ZRO, FL_POS]
    · simp [h0, h15, FL_NEG, FL_ZRO, FL_POS]

theorem flag_update_ok (s : State) (r x : Nat) (hr : r ≤ 7) :
    ((update_flag (setReg s r x) r).reg R_COND = FL_NEG ↔
        ((update_flag (setReg s r x) r).reg r).testBit 15 = true) ∧
    ((update_flag (setReg s r x) r).reg R_COND = FL_ZRO ↔
        (update_flag (setReg s r x) r).reg r = 0) ∧
    ((update_flag (setReg s r x) r).reg R_COND = FL_POS ↔
        (((update_flag (setReg s r x) r).reg r).testBit 15 = false ∧
          (update_flag (setReg s r x) r).reg r ≠ 0)) ∧
    ¬ (((update_flag (setReg s r x) r).reg r).testBit 15 = true ∧
        (update_flag (setReg s r x) r).reg r = 0) := by
  obtain ⟨h1, h2, _⟩ := update_flag_setReg s r x hr
  apply cond_classifies
  rw [h1, h2]

/-- C3: after one step on an instruction whose opcode is ADD, AND, NOT, LD, LDI, LDR
or LEA, `COND` is NEGATIVE exactly when bit 15 of the new value of the destination
register is set, ZERO exactly when that value is 0, and POSITIVE exactly when
neither holds; the first two cases never hold together. -/
theorem flag_instructions_set_cond (s : State)
    (hop : (fetch s).1 >>> 12 = OP_ADD ∨ (fetch s).1 >>> 12 = OP_AND ∨
      (fetch s).1 >>> 12 = OP_NOT ∨ (fetch s).1 >>> 12 = OP_LD ∨
      (fetch s).1 >>> 12 = OP_LDI ∨ (fetch s).1 >>> 12 = OP_LDR ∨
      (fetch s).1 >>> 12 = OP_LEA) :
    ∃ s1, step s = .ok s1 ∧
      (s1.reg R_COND = FL_NEG ↔ (s1.reg (((fetch s).1 >>> 9) &&& 0x7)).testBit 15 = true) ∧
      (s1.reg R_COND = FL_ZRO ↔ s1.reg (((fetch s).1 >>> 9) &&& 0x7) = 0) ∧
      (s1.reg R_COND = FL_POS ↔
        ((s1.reg (((fetch s).1 >>> 9) &&& 0x7)).testBit 15 = false ∧
          s1.reg (((fetch s).1 >>> 9) &&& 0x7) ≠ 0)) ∧
      ¬ ((s1.reg (((fetch s).1 >>> 9) &&& 0x7)).testBit 15 = true ∧
          s1.reg (((fetch s).1 >>> 9) &&& 0x7) = 0) := by
  have hr := field_le_seven ((fetch s).1 >>> 9)
  unfold step execute
  generalize (fetch s).1 = instr at *
  generalize (fetch s).2 = s0 at *
  rcases hop with h | h | h | h | h | h | h <;> rw [h] <;>
    simp only [OP_ADD, OP_AND, OP_NOT, OP_BR, OP_JMP, OP_JSR, OP_LD, OP_LDI, OP_LDR, OP_LEA,
      OP_ST, OP_STI, OP_STR, OP_TRAP, OP_RES, OP_RTI, if_true, Nat.reduceEqDiff, if_false] <;>
    refine ⟨_, rfl, ?_⟩
  · unfold op_add
    dsimp only
    split <;> exact flag_update_ok _ _ _ hr
  · unfold op_and
    dsimp only
    split <;> exact flag_update_ok _ _ _ hr
  · exact flag_update_ok _ _ _ hr
  · exact flag_update_ok _ _ _ hr
  · exact flag_update_ok _ _ _ hr
  · exact flag_update_ok _ _ _ hr
  · exact flag_update_ok _ _ _ hr

theorem flag_instructions_set_cond_witness :
    ((fetch addImmState).1 >>> 12 = OP_ADD ∨ (fetch addImmState).1 >>> 12 = OP_AND ∨
      (fetch addImmState).1 >>> 12 = OP_NOT ∨ (fetch addImmState).1 >>> 12 = OP_LD ∨
      (fetch addImmState).1 >>> 12 = OP_LDI ∨ (fetch addImmState).1 >>> 12 = OP_LDR ∨
      (fetch addImmState).1 >>> 12 = OP_LEA) ∧
    ∃ s1, step addImmState = .ok s1 ∧
      (s1.reg R_COND = FL_NEG ↔
        (s1.reg (((fetch addImmState).1 >>> 9) &&& 0x7)).testBit 15 = true) ∧
      (s1.reg R_COND = FL_ZRO ↔ s1.reg (((fetch addImmState).1 >>> 9) &&& 0x7) = 0) ∧
      (s1.reg R_COND = FL_POS ↔
        ((s1.reg (((fetch addImmState).1 >>> 9) &&& 0x7)).testBit 15 = false ∧
          s1.reg (((fetch addImmState).1 >>> 9) &&& 0x7) ≠ 0)) ∧
      ¬ ((s1.reg (((fetch addImmState).1 >>> 9) &&& 0x7)).testBit 15 = true ∧
          s1.reg (((fetch addImmState).1 >>> 9) &&& 0x7) = 0) :=
  ⟨by decide, flag_instructions_set_cond addImmState (by decide)⟩

theorem mem_read_of_ne (s : State) (a : Nat) (h : w16 a ≠ KBSR) :
    mem_read s a = (s.memory (w16 a), s) := by
  unfold mem_read
  simp only [if_neg h]

theorem fetch_of_ne (s : State) (h : w16 (s.reg R_PC) ≠ KBSR) :
    fetch s = (w16 (s.memory (w16 (s.reg R_PC))), setReg s R_PC (s.reg R_PC + 1)) := by
  unfold fetch
  rw [mem_read_of_ne _ _ h]
  rfl

theorem fetch_reg_gp (s : State) (r : Nat) (hr : r ≤ 7) : (fetch s).2.reg r = s.reg r := by
  rw [fetch_reg]
  have : r ≠ R_PC := by simp only [R_PC]; omega
  simp only [store, if_neg this]

theorem fetch_reg_cond (s : State) : (fetch s).2.reg R_COND = s.reg R_COND := by
  rw [fetch_reg]
  rfl

theorem fetch_reg_pc (s : State) : (fetch s).2.reg R_PC = w16 (s.reg R_PC + 1) := by
  rw [fetch_reg]
  rfl

/-- The dispatch of `execute` on each opcode value. -/
theorem execute_add (i : Nat) (s : State) (h : i >>> 12 = OP_ADD) :
    execute i s = .ok (op_add i s) := by
  unfold execute; simp [h]

/-- C4: an ADD instruction leaves in its destination register the 16-bit sum of the
first source register and either the sign-extended `imm5` (bit 5 set) or the
second source register (bit 5 clear), both read in the state before the step.
With `R1 = 5` as source and `imm5 = 0b11101` the destination becomes 2 and `COND`
becomes POSITIVE. -/
theorem add_semantics (s : State) (hop : (fetch s).1 >>> 12 = OP_ADD) :
    ∃ s1, step s = .ok s1 ∧
      (((fetch s).1 >>> 5) &&& 0x1 ≠ 0 →
        s1.reg (((fetch s).1 >>> 9) &&& 0x7) =
          (s.reg (((fetch s).1 >>> 6) &&& 0x7) + sign_extended ((fetch s).1 &&& 0x1F) 5)
            % 65536) ∧
      (((fetch s).1 >>> 5) &&& 0x1 = 0 →
        s1.reg (((fetch s).1 >>> 9) &&& 0x7) =
          (s.reg (((fetch s).1 >>> 6) &&& 0x7) + s.reg ((fetch s).1 &&& 0x7)) % 65536) ∧
      (((fetch s).1 >>> 5) &&& 0x1 ≠ 0 → ((fetch s).1 >>> 6) &&& 0x7 = R_R1 →
        s.reg R_R1 = 5 → (fetch s).1 &&& 0x1F = 0b11101 →
        s1.reg (((fetch s).1 >>> 9) &&& 0x7) = 2 ∧ s1.reg R_COND = FL_POS) := by
  have hd := field_le_seven ((fetch s).1 >>> 9)
  have h1 := fetch_reg_gp s _ (field_le_seven ((fetch s).1 >>> 6))
  have h2 := fetch_reg_gp s _ (field_le_seven (fetch s).1)
  unfold step
  rw [execute_add _ _ hop]
  refine ⟨_, rfl, ?_, ?_, ?_⟩
  · intro himm
    unfold op_add
    simp only [if_pos himm]
    rw [(update_flag_setReg _ _ _ hd).1, h1]
    rfl
  · intro himm
    unfold op_add
    simp only [himm, ne_eq, not_true_eq_false, if_false]
    rw [(update_flag_setReg _ _ _ hd).1, h1, h2]
    rfl
  · intro himm hs1 hr1 hf
    unfold op_add
    simp only [if_pos himm]
    obtain ⟨ha, hb, _⟩ := update_flag_setReg (fetch s).2
      (((fetch s).1 >>> 9) &&& 0x7)
      ((fetch s).2.reg (((fetch s).1 >>> 6) &&& 0x7) + sign_extended ((fetch s).1 &&& 0x1F) 5) hd
    rw [ha, hb, h1, hs1, hr1, hf]
    decide

theorem add_semantics_witness :
    ∃ s1, step addImmState = .ok s1 ∧ s1.reg R_R2 = 2 ∧ s1.reg R_COND = FL_POS := by
  obtain ⟨s1, hs, _, _, h⟩ := add_semantics addImmState (by decide)
  exact ⟨s1, hs, h (by decide) (by decide) (by decide) (by decide)⟩

/-! ## Well-formed example states -/

theorem imageOf_lt (cells : List (Nat × Nat)) (h : ∀ c ∈ cells, c.2 < 65536) (a : Nat) :
    imageOf cells a < 65536 := by
  unfold imageOf
  cases hf : cells.find? (fun c => c.1 = a) with
  | none => simp
  | some c =>
    simp only [Option.map_some', Option.getD_some]
    exact h c (List.mem_of_find?_eq_some hf)

theorem WF_setReg (s : State) (r v : Nat) (h : WF s) : WF (setReg s r v) := by
  obtain ⟨h1, h2, h3⟩ := h
  refine ⟨?_, h2, h3⟩
  intro i hi
  simp only [setReg, store]
  split
  · exact w16_lt v
  · exact h1 i hi

theorem WF_initState (image : Nat → Nat) (input : List Nat)
    (himg : ∀ a, image a < 65536) (hin : ∀ b ∈ input, b < 256) :
    WF (initState image input) := by
  unfold initState
  apply WF_setReg
  apply WF_setReg
  exact ⟨fun _ _ => (by decide : (0 : Nat) < 65536), fun a _ => himg a, hin,
    fun _ hb => absurd hb (List.not_mem_nil _)⟩

theorem execute_ldi (i : Nat) (s : State) (h : i >>> 12 = OP_LDI) :
    execute i s = .ok (op_ldi i s) := by
  unfold execute; simp [h]

/-- C5: when an LDI instruction is fetched from an address `a` and neither `a`, the
pointer address `p = (a + 1 + sign_extended (o, 9)) mod 2^16` nor `memory[p]` is
`KBSR`, the step leaves `memory[memory[p]]` in the destination register.  With
offset 1 and `memory[memory[a + 2]] = 0x1234` the destination holds `0x1234`. -/
theorem ldi_loads_indirect (s : State) (hwf : WF s)
    (hop : s.memory (s.reg R_PC) >>> 12 = OP_LDI)
    (ha : s.reg R_PC ≠ KBSR)
    (hp : (s.reg R_PC + 1 + sign_extended (s.memory (s.reg R_PC) &&& 0x1FF) 9) % 65536 ≠ KBSR)
    (hq : s.memory ((s.reg R_PC + 1 + sign_extended (s.memory (s.reg R_PC) &&& 0x1FF) 9)
      % 65536) ≠ KBSR) :
    ∃ s1, step s = .ok s1 ∧
      s1.reg ((s.memory (s.reg R_PC) >>> 9) &&& 0x7) =
        s.memory (s.memory
          ((s.reg R_PC + 1 + sign_extended (s.memory (s.reg R_PC) &&& 0x1FF) 9) % 65536)) ∧
      (s.memory (s.reg R_PC) &&& 0x1FF = 1 →
        s.memory (s.memory ((s.reg R_PC + 2) % 65536)) = 0x1234 →
        s1.reg ((s.memory (s.reg R_PC) >>> 9) &&& 0x7) = 0x1234) := by
  obtain ⟨hreg, hmem, _⟩ := hwf
  have hpc : s.reg R_PC < 65536 := hreg R_PC (by decide)
  have hpc16 : w16 (s.reg R_PC) = s.reg R_PC := w16_of_lt hpc
  have hi : s.memory (s.reg R_PC) < 65536 := hmem _ hpc
  have hf := fetch_of_ne s (by rw [hpc16]; exact ha)
  rw [hpc16, w16_of_lt hi] at hf
  have hd := field_le_seven (s.memory (s.reg R_PC) >>> 9)
  have hmain : ∃ s1, step s = .ok s1 ∧
      s1.reg ((s.memory (s.reg R_PC) >>> 9) &&& 0x7) =
        s.memory (s.memory
          ((s.reg R_PC + 1 + sign_extended (s.memory (s.reg R_PC) &&& 0x1FF) 9) % 65536)) := by
    unfold step
    rw [hf]
    dsimp only
    rw [execute_ldi _ _ hop]
    refine ⟨_, rfl, ?_⟩
    unfold op_ldi
    dsimp only
    have hpc1 : (setReg s R_PC (s.reg R_PC + 1)).reg R_PC = w16 (s.reg R_PC + 1) := rfl
    have hw : w16 (w16 (s.reg R_PC + 1) + sign_extended (s.memory (s.reg R_PC) &&& 0x1FF) 9)
        = (s.reg R_PC + 1 + sign_extended (s.memory (s.reg R_PC) &&& 0x1FF) 9) % 65536 := by
      unfold w16; omega
    have hplt : (s.reg R_PC + 1 + sign_extended (s.memory (s.reg R_PC) &&& 0x1FF) 9) % 65536
        < MEM_SIZE := Nat.mod_lt _ (by decide)
    have hm1 := hmem _ hplt
    have hin : mem_read (setReg s R_PC (s.reg R_PC + 1))
        (w16 (s.reg R_PC + 1) + sign_extended (s.memory (s.reg R_PC) &&& 0x1FF) 9) =
        (s.memory ((s.reg R_PC + 1 + sign_extended (s.memory (s.reg R_PC) &&& 0x1FF) 9)
          % 65536), setReg s R_PC (s.reg R_PC + 1)) := by
      rw [mem_read_of_ne _ _ (by rw [hw]; exact hp), hw]
      rfl
    rw [hpc1, hin]
    dsimp only
    have hout : mem_read (setReg s R_PC (s.reg R_PC + 1))
        (s.memory ((s.reg R_PC + 1 + sign_extended (s.memory (s.reg R_PC) &&& 0x1FF) 9)
          % 65536)) =
        (s.memory (s.memory ((s.reg R_PC + 1 +
          sign_extended (s.memory (s.reg R_PC) &&& 0x1FF) 9) % 65536)),
          setReg s R_PC (s.reg R_PC + 1)) := by
      rw [mem_read_of_ne _ _ (by rw [w16_of_lt hm1]; exact hq), w16_of_lt hm1]
      rfl
    rw [hout]
    dsimp only
    rw [(update_flag_setReg _ _ _ hd).1]
    exact w16_of_lt (hmem _ hm1)
  obtain ⟨s1, hs, hv⟩ := hmain
  refine ⟨s1, hs, hv, ?_⟩
  intro ho h1234
  rw [hv, ho]
  have : sign_extended 1 9 = 1 := by decide
  rw [this]
  exact h1234

theorem ldiState_WF : WF ldiState :=
  WF_initState _ _ (imageOf_lt _ (by decide)) (by simp)

theorem ldi_loads_indirect_witness :
    ∃ s1, step ldiState = .ok s1 ∧ s1.reg R_R3 = 0x1234 := by
  obtain ⟨s1, hs, _, h⟩ := ldi_loads_indirect ldiState ldiState_WF (by decide) (by decide)
    (by decide) (by decide)
  exact ⟨s1, hs, h (by decide) (by decide)⟩
/-! ## The HALT program -/

theorem execute_trap (i : Nat) (s : State) (h : i >>> 12 = OP_TRAP) :
    execute i s = op_trap i s := by
  unfold execute; simp [h]

/-- C6 as stated fails: on the image holding only `TRAP HALT` at `PC_START`, no state
reached after one cycle has `R7 = 0x3001` with every other register-file slot,
`PC` included, and every memory word as before the cycle. -/
theorem halt_program_changes_pc :
    ¬ ∃ s1, loop 1 0 (initState haltImage []) = .halted 1 s1 ∧
      s1.reg R_R7 = 0x3001 ∧
      (∀ r, r < R_COUNT → r ≠ R_R7 → s1.reg r = (initState haltImage []).reg r) ∧
      ∀ a, s1.memory a = (initState haltImage []).memory a := by
  rintro ⟨s1, hl, -, hr, -⟩
  have h8 := hr R_PC (by decide) (by decide)
  have hrun : ∃ s2, loop 1 0 (initState haltImage []) = .halted 1 s2 ∧
      s2.reg R_PC = 0x3001 := ⟨_, rfl, by decide⟩
  obtain ⟨s2, hl2, h2⟩ := hrun
  rw [hl] at hl2
  injection hl2 with _ hs
  rw [hs, h2] at h8
  revert h8
  decide

/-- C6, amended: from the initial state with `TRAP HALT` at `PC_START` the loop runs
exactly one cycle and stops; afterwards `R7 = 0x3001` and `PC = 0x3001`, and no
other register-file slot and no memory word differs from its value before the
cycle. -/
theorem halt_program_one_cycle (image : Nat → Nat) (input : List Nat)
    (himg : image PC_START = 0xF025) :
    ∃ s1, (∀ fuel, loop (fuel + 1) 0 (initState image input) = .halted 1 s1) ∧
      s1.reg R_R7 = 0x3001 ∧ s1.reg R_PC = 0x3001 ∧
      (∀ r, r ≠ R_R7 → r ≠ R_PC → s1.reg r = (initState image input).reg r) ∧
      (∀ a, s1.memory a = image a) ∧
      s1.input = input ∧ s1.output = haltBanner := by
  have hpc : (initState image input).reg R_PC = 0x3000 := rfl
  have hf : fetch (initState image input) =
      (0xF025, setReg (initState image input) R_PC 0x3001) := by
    rw [fetch_of_ne _ (by rw [hpc]; decide), hpc]
    have : (initState image input).memory (w16 0x3000) = 0xF025 := himg
    rw [this]
    rfl
  have hstep : step (initState image input) =
      .ok { setReg (setReg (initState image input) R_PC 0x3001) R_R7 0x3001 with
            output := haltBanner, running := false } := by
    unfold step
    rw [hf]
    dsimp only
    rw [execute_trap _ _ (by decide)]
    rfl
  refine ⟨{ setReg (setReg (initState image input) R_PC 0x3001) R_R7 0x3001 with
            output := haltBanner, running := false }, ?_, ?_, ?_, ?_, ?_, ?_, ?_⟩
  · intro fuel
    unfold loop
    have hrun : (initState image input).running = true := rfl
    simp only [hrun, hstep]
    unfold loop
    simp
  · rfl
  · rfl
  · intro r h7 h8
    simp only [setReg, store, if_neg h7, if_neg h8]
  · intro a; rfl
  · rfl
  · rfl

theorem halt_program_one_cycle_witness :
    ∃ s1, (∀ fuel, loop (fuel + 1) 0 (initState haltImage []) = .halted 1 s1) ∧
      s1.reg R_R7 = 0x3001 ∧ s1.reg R_PC = 0x3001 ∧
      (∀ r, r ≠ R_R7 → r ≠ R_PC → s1.reg r = (initState haltImage []).reg r) ∧
      (∀ a, s1.memory a = haltImage a) ∧
      s1.input = [] ∧ s1.output = haltBanner :=
  halt_program_one_cycle haltImage [] (by decide)

/-! ## The string traps -/

theorem fetch_kbsr (s : State) (h : w16 (s.reg R_PC) = KBSR) :
    (fetch s).1 = 0 ∨ (fetch s).1 = 0x8000 := by
  unfold fetch mem_read
  simp only [h, if_true]
  split
  · right
    split
    · rename_i c s3 heq
      have hm := (getchar_frame _ _ _ heq).2.1
      show w16 (store s3.memory KBDR c KBSR) = 0x8000
      rw [hm]
      rfl
    · rfl
  · left; rfl

/-- An instruction fetched from `KBSR` is the status word just written, so an
instruction with a non-zero low byte or another opcode than 0 and 8 was fetched
from an ordinary address, and the fetch changed only `PC`. -/
theorem fetch_state_of_trap (s : State) (hop : (fetch s).1 >>> 12 = OP_TRAP) :
    (fetch s).2 = setReg s R_PC (s.reg R_PC + 1) := by
  have hne : w16 (s.reg R_PC) ≠ KBSR := by
    intro hc
    rcases fetch_kbsr s hc with h | h <;> rw [h] at hop <;> revert hop <;> decide
  rw [fetch_of_ne s hne]

theorem puts_loop_spec (m : Nat → Nat) (k : Nat) (hz : m k = 0) :
    ∀ n c out, c ≤ k → k < c + n → (∀ j, c ≤ j → j < k → m j ≠ 0) →
      puts_loop m n c out = .ok (out ++ (List.range' c (k - c)).map (fun a => m a % 256)) := by
  intro n
  induction n with
  | zero => intro c out h1 h2; omega
  | succ n ih =>
    intro c out h1 h2 hmin
    unfold puts_loop
    by_cases hck : c = k
    · subst hck
      simp [hz]
    · have hlt : c < k := by omega
      have hne := hmin c (le_refl c) hlt
      rw [if_pos hne, ih (c + 1) _ (by omega) (by omega)
        (fun j hj1 hj2 => hmin j (by omega) hj2)]
      have hk : k - c = (k - (c + 1)) + 1 := by omega
      rw [hk, List.range'_succ]
      simp

/-- C7: when a TRAP PUTS instruction executes and `k` is the least address from `R0` up
to `0xFFFF` holding a zero word, the step appends to the output exactly the low
bytes of `memory[R0], ..., memory[k-1]` in order, and leaves memory, `R0..R6` and
`COND` unchanged.  The walk depends on no memory word outside `R0 .. k`: on every
memory that agrees with this one on these addresses it yields the same output. -/
theorem puts_outputs_string (s : State) (k : Nat)
    (hop : (fetch s).1 >>> 12 = OP_TRAP) (hv : (fetch s).1 &&& 0xff = TRAP_PUTS)
    (hk0 : s.reg R_R0 ≤ k) (hk1 : k ≤ 0xFFFF) (hz : s.memory k = 0)
    (hmin : ∀ j, s.reg R_R0 ≤ j → j < k → s.memory j ≠ 0) :
    ∃ s1, step s = .ok s1 ∧
      s1.output = s.output ++
        (List.range' (s.reg R_R0) (k - s.reg R_R0)).map (fun a => s.memory a % 256) ∧
      (∀ m, (∀ a, s.reg R_R0 ≤ a → a ≤ k → m a = s.memory a) →
        puts_loop m (MEM_SIZE - s.reg R_R0) (s.reg R_R0) s.output = .ok s1.output) ∧
      (∀ a, s1.memory a = s.memory a) ∧
      (∀ r, r ≤ 6 → s1.reg r = s.reg r) ∧
      s1.reg R_COND = s.reg R_COND := by
  have hfs := fetch_state_of_trap s hop
  have hloop : ∀ m, (∀ a, s.reg R_R0 ≤ a → a ≤ k → m a = s.memory a) →
      puts_loop m (MEM_SIZE - s.reg R_R0) (s.reg R_R0) s.output = .ok (s.output ++
        (List.range' (s.reg R_R0) (k - s.reg R_R0)).map (fun a => s.memory a % 256)) := by
    intro m hm
    rw [puts_loop_spec m k (by rw [hm k hk0 (le_refl k)]; exact hz) _ _ _ hk0
      (by simp only [MEM_SIZE]; omega)
      (fun j h1 h2 => by rw [hm j h1 (by omega)]; exact hmin j h1 h2)]
    congr 2
    apply List.map_congr_left
    intro a ha
    rw [List.mem_range'_1] at ha
    rw [hm a ha.1 (by omega)]
  refine ⟨{ setReg (setReg s R_PC (s.reg R_PC + 1)) R_R7 (w16 (s.reg R_PC + 1)) with
      output := s.output ++
        (List.range' (s.reg R_R0) (k - s.reg R_R0)).map (fun a => s.memory a % 256) },
    ?_, rfl, ?_, fun _ => rfl, ?_, rfl⟩
  · unfold step
    rw [execute_trap _ _ hop]
    unfold op_trap
    simp only [hv, hfs]
    have h0 : (setReg (setReg s R_PC (s.reg R_PC + 1)) R_R7
        ((setReg s R_PC (s.reg R_PC + 1)).reg R_PC)).reg R_R0 = s.reg R_R0 := rfl
    have hm : (setReg (setReg s R_PC (s.reg R_PC + 1)) R_R7
        ((setReg s R_PC (s.reg R_PC + 1)).reg R_PC)).memory = s.memory := rfl
    have ho : (setReg (setReg s R_PC (s.reg R_PC + 1)) R_R7
        ((setReg s R_PC (s.reg R_PC + 1)).reg R_PC)).output = s.output := rfl
    simp only [TRAP_PUTS, TRAP_GETC, TRAP_OUT, Nat.reduceEqDiff, if_false, if_true]
    rw [h0, hm, ho, hloop s.memory (fun _ _ _ => rfl)]
    rfl
  · exact hloop
  · intro r hr
    have h7 : r ≠ R_R7 := by simp only [R_R7]; omega
    have h8 : r ≠ R_PC := by simp only [R_PC]; omega
    simp only [setReg, store, if_neg h7, if_neg h8]

theorem puts_outputs_string_witness :
    ∃ s1, step putsState = .ok s1 ∧ s1.output = [0x41, 0x42] := by
  have hr0 : putsState.reg R_R0 = 0x4000 := by decide
  obtain ⟨s1, hs, ho, _⟩ := puts_outputs_string putsState 0x4002 (by decide) (by decide)
    (by decide) (by decide) (by decide) (by
      intro j h1 h2
      rw [hr0] at h1
      have hj : j = 0x4000 ∨ j = 0x4001 := by omega
      rcases hj with rfl | rfl <;> decide)
  exact ⟨s1, hs, by rw [ho]; decide⟩

/-! ## Control transfer -/

theorem execute_br (i : Nat) (s : State) (h : i >>> 12 = OP_BR) :
    execute i s = .ok (op_br i s) := by
  unfold execute; simp [h]

theorem execute_jsr (i : Nat) (s : State) (h : i >>> 12 = OP_JSR) :
    execute i s = .ok (op_jsr i s) := by
  unfold execute; simp [h]

/-- C8: when a BR instruction with condition mask `n` and offset field `o` is fetched
from an address `a` other than `KBSR`, the step leaves
`PC = (a + 1 + sign_extended (o, 9)) mod 2^16` if `n AND COND` is non-zero and
`PC = (a + 1) mod 2^16` otherwise; `R0..R7`, `COND` and memory are unchanged. -/
theorem br_semantics (s : State) (hwf : WF s) (ha : s.reg R_PC ≠ KBSR)
    (hop : s.memory (s.reg R_PC) >>> 12 = OP_BR) :
    ∃ s1, step s = .ok s1 ∧
      (((s.memory (s.reg R_PC) >>> 9) &&& 0x7) &&& s.reg R_COND ≠ 0 →
        s1.reg R_PC =
          (s.reg R_PC + 1 + sign_extended (s.memory (s.reg R_PC) &&& 0x1FF) 9) % 65536) ∧
      (((s.memory (s.reg R_PC) >>> 9) &&& 0x7) &&& s.reg R_COND = 0 →
        s1.reg R_PC = (s.reg R_PC + 1) % 65536) ∧
      (∀ r, r ≤ 7 → s1.reg r = s.reg r) ∧
      s1.reg R_COND = s.reg R_COND ∧
      ∀ a, s1.memory a = s.memory a := by
  obtain ⟨hreg, hmem, _⟩ := hwf
  have hpc : s.reg R_PC < 65536 := hreg R_PC (by decide)
  have hpc16 : w16 (s.reg R_PC) = s.reg R_PC := w16_of_lt hpc
  have hi : s.memory (s.reg R_PC) < 65536 := hmem _ hpc
  have hf := fetch_of_ne s (by rw [hpc16]; exact ha)
  rw [hpc16, w16_of_lt hi] at hf
  unfold step
  rw [hf]
  dsimp only
  rw [execute_br _ _ hop]
  refine ⟨_, rfl, ?_, ?_, ?_, ?_, ?_⟩
  · intro hc
    unfold op_br
    have hc' : ((s.memory (s.reg R_PC) >>> 9) &&& 0x7) &&&
        (setReg s R_PC (s.reg R_PC + 1)).reg R_COND ≠ 0 := hc
    simp only [if_pos hc']
    show w16 (w16 (s.reg R_PC + 1) + _) = _
    unfold w16; omega
  · intro hc
    unfold op_br
    have hc' : ¬ (((s.memory (s.reg R_PC) >>> 9) &&& 0x7) &&&
        (setReg s R_PC (s.reg R_PC + 1)).reg R_COND ≠ 0) := fun h => h hc
    simp only [if_neg hc']
    rfl
  · intro r hr
    have h8 : r ≠ R_PC := by simp only [R_PC]; omega
    unfold op_br
    dsimp only
    split <;> simp only [setReg, store, if_neg h8]
  · unfold op_br
    dsimp only
    split <;> rfl
  · intro a
    unfold op_br
    dsimp only
    split <;> rfl

theorem br_semantics_witness :
    ∃ s1, step brState = .ok s1 ∧ s1.reg R_PC = 0x3006 ∧ s1.reg R_COND = FL_ZRO := by
  obtain ⟨s1, hs, h, _, _, hc, _⟩ := br_semantics brState
    (WF_initState _ _ (imageOf_lt _ (by decide)) (by simp)) (by decide) (by decide)
  exact ⟨s1, hs, by rw [h (by decide)]; decide, by rw [hc]; decide⟩

/-- C9: when a JSR-opcode instruction is fetched from address `a`, the step leaves
`R7 = (a + 1) mod 2^16`.  With bit 11 set, `PC` is
`(a + 1 + sign_extended (instr & 0x7FF, 11)) mod 2^16`.  With bit 11 clear, `PC` is
the base register read after `R7` was saved: its value before the instruction
when the base register is not `R7`, and `(a + 1) mod 2^16` when it is `R7`. -/
theorem jsr_semantics (s : State) (hwf : WF s) (hop : (fetch s).1 >>> 12 = OP_JSR) :
    ∃ s1, step s = .ok s1 ∧
      s1.reg R_R7 = (s.reg R_PC + 1) % 65536 ∧
      (((fetch s).1 >>> 11) &&& 0x1 ≠ 0 →
        s1.reg R_PC =
          (s.reg R_PC + 1 + sign_extended ((fetch s).1 &&& 0x7FF) 11) % 65536) ∧
      (((fetch s).1 >>> 11) &&& 0x1 = 0 →
        (((fetch s).1 >>> 6) &&& 0x7 ≠ R_R7 →
          s1.reg R_PC = s.reg (((fetch s).1 >>> 6) &&& 0x7)) ∧
        (((fetch s).1 >>> 6) &&& 0x7 = R_R7 → s1.reg R_PC = (s.reg R_PC + 1) % 65536)) := by
  obtain ⟨hreg, _, _⟩ := hwf
  have hb := field_le_seven ((fetch s).1 >>> 6)
  have hbase := fetch_reg_gp s _ hb
  have hpc := fetch_reg_pc s
  unfold step
  rw [execute_jsr _ _ hop]
  refine ⟨_, rfl, ?_, ?_, ?_⟩
  · unfold op_jsr
    dsimp only
    split <;> simp only [setReg, store, hpc] <;> simp [w16]
  · intro hf
    unfold op_jsr
    simp only [if_pos hf]
    simp only [setReg, store, hpc]
    simp [w16]
  · intro hf
    have hf' : ¬ (((fetch s).1 >>> 11) &&& 0x1 ≠ 0) := fun h => h hf
    unfold op_jsr
    simp only [if_neg hf']
    constructor
    · intro h7
      simp only [setReg, store, if_neg h7, hbase, if_true]
      exact w16_of_lt (hreg _ (by simp only [R_COUNT]; omega))
    · intro h7
      simp only [setReg, store, h7, hpc, if_true]
      simp [w16]

theorem jsr_semantics_witness :
    ∃ s1, step jsrState = .ok s1 ∧ s1.reg R_R7 = 0x3001 ∧ s1.reg R_PC = 0x2FFF := by
  obtain ⟨s1, hs, h7, hpc, _⟩ := jsr_semantics jsrState
    (WF_initState _ _ (imageOf_lt _ (by decide)) (by simp)) (by decide)
  exact ⟨s1, hs, by rw [h7]; decide, by rw [hpc (by decide)]; decide⟩

/-! ## Instructions that leave `COND` alone -/

theorem execute_jmp (i : Nat) (s : State) (h : i >>> 12 = OP_JMP) :
    execute i s = .ok (op_jmp i s) := by
  unfold execute; simp [h]

theorem execute_st (i : Nat) (s : State) (h : i >>> 12 = OP_ST) :
    execute i s = .ok (op_st i s) := by
  unfold execute; simp [h]

theorem execute_sti (i : Nat) (s : State) (h : i >>> 12 = OP_STI) :
    execute i s = .ok (op_sti i s) := by
  unfold execute; simp [h]

theorem execute_str (i : Nat) (s : State) (h : i >>> 12 = OP_STR) :
    execute i s = .ok (op_str i s) := by
  unfold execute; simp [h]

theorem op_br_cond (i : Nat) (s : State) : (op_br i s).reg R_COND = s.reg R_COND := by
  unfold op_br
  dsimp only
  split <;> rfl

theorem op_jsr_cond (i : Nat) (s : State) : (op_jsr i s).reg R_COND = s.reg R_COND := by
  unfold op_jsr
  dsimp only
  split <;> rfl

theorem op_sti_cond (i : Nat) (s : State) : (op_sti i s).reg R_COND = s.reg R_COND := by
  unfold op_sti mem_write
  dsimp only
  rw [mem_read_reg]

theorem puts_loop_ok (m : Nat → Nat) (k : Nat) (hz : m k = 0) :
    ∀ n c out, c ≤ k → k < c + n → ∃ o, puts_loop m n c out = .ok o := by
  intro n
  induction n with
  | zero => intro c out h1 h2; omega
  | succ n ih =>
    intro c out h1 h2
    unfold puts_loop
    by_cases hc : m c ≠ 0
    · rw [if_pos hc]
      have : c ≠ k := fun h => hc (h ▸ hz)
      exact ih _ _ (by omega) (by omega)
    · rw [if_neg hc]
      exact ⟨out, rfl⟩

theorem putsp_loop_ok (m : Nat → Nat) (k : Nat) (hz : m k = 0) :
    ∀ n c out, c ≤ k → k < c + n → ∃ o, putsp_loop m n c out = .ok o := by
  intro n
  induction n with
  | zero => intro c out h1 h2; omega
  | succ n ih =>
    intro c out h1 h2
    unfold putsp_loop
    by_cases hc : m c ≠ 0
    · rw [if_pos hc]
      have : c ≠ k := fun h => hc (h ▸ hz)
      exact ih _ _ (by omega) (by omega)
    · rw [if_neg hc]
      exact ⟨out, rfl⟩

theorem op_trap_cond (i : Nat) (s s1 : State)
    (h1 : i &&& 0xff ≠ TRAP_GETC) (h2 : i &&& 0xff ≠ TRAP_IN)
    (hs : op_trap i s = .ok s1) : s1.reg R_COND = s.reg R_COND := by
  unfold op_trap at hs
  simp only [if_neg h1, if_neg h2] at hs
  split at hs
  · injection hs with hs; subst hs; rfl
  · split at hs
    · split at hs
      · injection hs with hs; subst hs; rfl
      · exact absurd hs (by simp)
    · split at hs
      · split at hs
        · injection hs with hs; subst hs; rfl
        · exact absurd hs (by simp)
      · split at hs
        · injection hs with hs; subst hs; rfl
        · injection hs with hs; subst hs; rfl

theorem op_trap_ok (i : Nat) (s : State)
    (h1 : i &&& 0xff ≠ TRAP_GETC) (h2 : i &&& 0xff ≠ TRAP_IN)
    (hterm : i &&& 0xff = TRAP_PUTS ∨ i &&& 0xff = TRAP_PUTSP →
      ∃ k, s.reg R_R0 ≤ k ∧ k ≤ 0xFFFF ∧ s.memory k = 0) :
    ∃ s1, op_trap i s = .ok s1 := by
  unfold op_trap
  simp only [if_neg h1, if_neg h2]
  have h0 : (setReg s R_R7 (s.reg R_PC)).reg R_R0 = s.reg R_R0 := rfl
  have hm : (setReg s R_R7 (s.reg R_PC)).memory = s.memory := rfl
  split
  · exact ⟨_, rfl⟩
  · split
    · rename_i hv
      obtain ⟨k, hk0, hk1, hz⟩ := hterm (Or.inl hv)
      obtain ⟨o, ho⟩ := puts_loop_ok s.memory k hz (MEM_SIZE - s.reg R_R0) (s.reg R_R0)
        s.output hk0 (by simp only [MEM_SIZE]; omega)
      rw [h0, hm]
      have hout : (setReg s R_R7 (s.reg R_PC)).output = s.output := rfl
      rw [hout, ho]
      exact ⟨_, rfl⟩
    · split
      · rename_i hv
        obtain ⟨k, hk0, hk1, hz⟩ := hterm (Or.inr hv)
        obtain ⟨o, ho⟩ := putsp_loop_ok s.memory k hz (MEM_SIZE - s.reg R_R0) (s.reg R_R0)
          s.output hk0 (by simp only [MEM_SIZE]; omega)
        rw [h0, hm]
        have hout : (setReg s R_R7 (s.reg R_PC)).output = s.output := rfl
        rw [hout, ho]
        exact ⟨_, rfl⟩
      · split <;> exact ⟨_, rfl⟩

/-- C10, amended: for an instruction whose opcode is ST, STI, STR, BR, JMP or JSR, or
TRAP with a vector other than GETC (0x20) and IN (0x23), `COND` after the step
equals `COND` before it.  The step completes; for the string traps PUTS and PUTSP
it does so when a zero word ends the string at or after `R0`. -/
theorem cond_preserved_without_flag_update (s : State)
    (hop : (fetch s).1 >>> 12 = OP_ST ∨ (fetch s).1 >>> 12 = OP_STI ∨
      (fetch s).1 >>> 12 = OP_STR ∨ (fetch s).1 >>> 12 = OP_BR ∨
      (fetch s).1 >>> 12 = OP_JMP ∨ (fetch s).1 >>> 12 = OP_JSR ∨
      ((fetch s).1 >>> 12 = OP_TRAP ∧ (fetch s).1 &&& 0xff ≠ TRAP_GETC ∧
        (fetch s).1 &&& 0xff ≠ TRAP_IN)) :
    (∀ s1, step s = .ok s1 → s1.reg R_COND = s.reg R_COND) ∧
    (((fetch s).1 >>> 12 = OP_TRAP →
        (fetch s).1 &&& 0xff = TRAP_PUTS ∨ (fetch s).1 &&& 0xff = TRAP_PUTSP →
        ∃ k, s.reg R_R0 ≤ k ∧ k ≤ 0xFFFF ∧ s.memory k = 0) →
      ∃ s1, step s = .ok s1) := by
  have hc := fetch_reg_cond s
  unfold step
  rcases hop with h | h | h | h | h | h | ⟨h, hv1, hv2⟩
  · rw [execute_st _ _ h]
    exact ⟨fun s1 hs => by injection hs with hs; subst hs; exact hc, fun _ => ⟨_, rfl⟩⟩
  · rw [execute_sti _ _ h]
    exact ⟨fun s1 hs => by injection hs with hs; subst hs; rw [op_sti_cond, hc],
      fun _ => ⟨_, rfl⟩⟩
  · rw [execute_str _ _ h]
    exact ⟨fun s1 hs => by injection hs with hs; subst hs; exact hc, fun _ => ⟨_, rfl⟩⟩
  · rw [execute_br _ _ h]
    exact ⟨fun s1 hs => by injection hs with hs; subst hs; rw [op_br_cond, hc],
      fun _ => ⟨_, rfl⟩⟩
  · rw [execute_jmp _ _ h]
    exact ⟨fun s1 hs => by injection hs with hs; subst hs; exact hc, fun _ => ⟨_, rfl⟩⟩
  · rw [execute_jsr _ _ h]
    exact ⟨fun s1 hs => by injection hs with hs; subst hs; rw [op_jsr_cond, hc],
      fun _ => ⟨_, rfl⟩⟩
  · rw [execute_trap _ _ h]
    refine ⟨fun s1 hs => by rw [op_trap_cond _ _ _ hv1 hv2 hs, hc], fun hterm => ?_⟩
    apply op_trap_ok _ _ hv1 hv2
    intro hv
    have hfs := fetch_state_of_trap s h
    obtain ⟨k, hk⟩ := hterm h hv
    exact ⟨k, by rw [hfs]; exact hk⟩

/-- C10 as stated fails: `TRAP GETC` is a TRAP instruction, and with a byte pending
on stdin its step runs the flag update on `R0` and changes `COND` from ZERO to
POSITIVE. -/
theorem trap_getc_changes_cond :
    (fetch getcState).1 >>> 12 = OP_TRAP ∧
      ∃ s1, step getcState = .ok s1 ∧ getcState.reg R_COND = FL_ZRO ∧
        s1.reg R_COND = FL_POS ∧ s1.reg R_COND ≠ getcState.reg R_COND :=
  ⟨by decide, _, rfl, by decide, by decide, by decide⟩

theorem cond_preserved_without_flag_update_witness :
    ∃ s1, step outState = .ok s1 ∧ s1.reg R_COND = outState.reg R_COND := by
  obtain ⟨h1, h2⟩ := cond_preserved_without_flag_update outState (by decide)
  obtain ⟨s1, hs⟩ := h2 (fun _ hv => absurd hv (by decide))
  exact ⟨s1, hs, h1 s1 hs⟩

/-! ## Stores -/

/-- C11: when an ST, STI or STR instruction with source register `sr` is fetched from an
address `a` other than `KBSR` (and, for STI, the pointer address is not `KBSR`),
the step writes `reg[sr]` to the one memory word at `addr`, where `addr` is
`(a + 1 + sign_extended (off9, 9)) mod 2^16` for ST, the word stored at that
address for STI, and `(reg[base] + sign_extended (off6, 6)) mod 2^16` for STR;
every other memory word and `R0..R7` are unchanged and `PC = (a + 1) mod 2^16`. -/
theorem store_semantics (s : State) (a instr addr : Nat) (hwf : WF s)
    (hpc : s.reg R_PC = a) (ha : a ≠ KBSR) (hi : s.memory a = instr)
    (haddr :
      (instr >>> 12 = OP_ST ∧
        addr = (a + 1 + sign_extended (instr &&& 0x1ff) 9) % 65536) ∨
      (instr >>> 12 = OP_STI ∧
        (a + 1 + sign_extended (instr &&& 0x1ff) 9) % 65536 ≠ KBSR ∧
        addr = s.memory ((a + 1 + sign_extended (instr &&& 0x1ff) 9) % 65536)) ∨
      (instr >>> 12 = OP_STR ∧
        addr = (s.reg ((instr >>> 6) &&& 0x7) + sign_extended (instr &&& 0x3f) 6) % 65536)) :
    ∃ s1, step s = .ok s1 ∧
      s1.memory addr = s.reg ((instr >>> 9) &&& 0x7) ∧
      (∀ b, b ≠ addr → s1.memory b = s.memory b) ∧
      (∀ r, r ≤ 7 → s1.reg r = s.reg r) ∧
      s1.reg R_PC = (a + 1) % 65536 := by
  obtain ⟨hreg, hmem, _⟩ := hwf
  have hpclt : s.reg R_PC < 65536 := hreg R_PC (by decide)
  have hpc16 : w16 (s.reg R_PC) = s.reg R_PC := w16_of_lt hpclt
  have hilt : s.memory (s.reg R_PC) < 65536 := hmem _ hpclt
  have hf := fetch_of_ne s (by rw [hpc16, hpc]; exact ha)
  rw [hpc16, w16_of_lt hilt, hpc, hi] at hf
  have hsr : s.reg ((instr >>> 9) &&& 0x7) < 65536 :=
    hreg _ (by have := field_le_seven (instr >>> 9); simp only [R_COUNT]; omega)
  have hgp : ∀ r, r ≤ 7 → (setReg s R_PC (a + 1)).reg r = s.reg r := by
    intro r hr
    have h8 : r ≠ R_PC := by simp only [R_PC]; omega
    simp only [setReg, store, if_neg h8]
  have hsrc := hgp _ (field_le_seven (instr >>> 9))
  have hpc1 : (setReg s R_PC (a + 1)).reg R_PC = w16 (a + 1) := rfl
  have hm0 : (setReg s R_PC (a + 1)).memory = s.memory := rfl
  unfold step
  rw [hf]
  dsimp only
  rcases haddr with ⟨hop, rfl⟩ | ⟨hop, hp, rfl⟩ | ⟨hop, rfl⟩
  · rw [execute_st _ _ hop]
    have hw : w16 (w16 (a + 1) + sign_extended (instr &&& 0x1ff) 9)
        = (a + 1 + sign_extended (instr &&& 0x1ff) 9) % 65536 := by
      unfold w16; omega
    refine ⟨_, rfl, ?_, ?_, hgp, rfl⟩
    · unfold op_st mem_write
      simp only [hpc1, hw, hsrc, hm0, store, if_true]
      exact w16_of_lt hsr
    · intro b hb
      unfold op_st mem_write
      simp only [hpc1, hw, hm0, store, if_neg hb]
  · rw [execute_sti _ _ hop]
    have hw : w16 (w16 (a + 1) + sign_extended (instr &&& 0x1ff) 9)
        = (a + 1 + sign_extended (instr &&& 0x1ff) 9) % 65536 := by
      unfold w16; omega
    have hplt : (a + 1 + sign_extended (instr &&& 0x1ff) 9) % 65536 < MEM_SIZE :=
      Nat.mod_lt _ (by decide)
    have hrd : mem_read (setReg s R_PC (a + 1))
        (w16 (a + 1) + sign_extended (instr &&& 0x1ff) 9) =
        (s.memory ((a + 1 + sign_extended (instr &&& 0x1ff) 9) % 65536),
          setReg s R_PC (a + 1)) := by
      rw [mem_read_of_ne _ _ (by rw [hw]; exact hp), hw]
      rfl
    have hop_eq : op_sti instr (setReg s R_PC (a + 1)) =
        mem_write (setReg s R_PC (a + 1))
          (s.memory ((a + 1 + sign_extended (instr &&& 0x1ff) 9) % 65536))
          ((setReg s R_PC (a + 1)).reg ((instr >>> 9) &&& 0x7)) := by
      unfold op_sti
      dsimp only
      rw [hpc1, hrd]
    rw [hop_eq]
    refine ⟨_, rfl, ?_, ?_, hgp, rfl⟩
    · unfold mem_write
      simp only [w16_of_lt (hmem _ hplt), hsrc, hm0, store, if_true]
      exact w16_of_lt hsr
    · intro b hb
      unfold mem_write
      simp only [w16_of_lt (hmem _ hplt), hm0, store, if_neg hb]
  · rw [execute_str _ _ hop]
    have hbase := hgp _ (field_le_seven (instr >>> 6))
    refine ⟨_, rfl, ?_, ?_, hgp, rfl⟩
    · unfold op_str mem_write
      simp only [hbase, hsrc, hm0, store, w16, if_true]
      exact w16_of_lt hsr
    · intro b hb
      unfold op_str mem_write
      simp only [hbase, hm0, store]
      exact if_neg hb

theorem store_semantics_witness :
    ∃ s1, step stiState = .ok s1 ∧ s1.memory 0x5000 = 0xBEEF ∧
      (∀ b, b ≠ 0x5000 → s1.memory b = stiState.memory b) ∧ s1.reg R_PC = 0x3001 := by
  have hwf : WF stiState :=
    WF_setReg _ _ _ (WF_initState _ _ (imageOf_lt _ (by decide)) (by simp))
  obtain ⟨s1, hs, hm, hframe, _, hpc⟩ := store_semantics stiState 0x3000 0xB201 0x5000 hwf
    (by decide) (by decide) (by decide) (Or.inr (Or.inl (by decide)))
  exact ⟨s1, hs, by rw [hm]; decide, hframe, by rw [hpc]⟩

/-! ## Memory-mapped keyboard -/

/-- With nothing in the stream buffer and one byte pending on an open stdin, a read
of `KBSR` sets the status word to `0x8000`, latches the byte in `KBDR`, takes it
from the input and returns `0x8000`.  With nothing pending on an open stdin, it
clears the status word, leaves `KBDR` and the input alone and returns 0.  A read
of any other 16-bit address, `KBDR` included, is a plain lookup. -/
theorem mem_read_one_byte_pending (s : State) :
    (∀ c, s.buffered = [] → s.input = [c] → c < 256 →
      (mem_read s KBSR).1 = 0x8000 ∧
      (mem_read s KBSR).2.memory KBSR = 0x8000 ∧
      (mem_read s KBSR).2.memory KBDR = c ∧
      (mem_read s KBSR).2.input = [] ∧ (mem_read s KBSR).2.buffered = []) ∧
    (s.input = [] → s.eof = false →
      (mem_read s KBSR).1 = 0 ∧
      (mem_read s KBSR).2.memory KBSR = 0 ∧
      (mem_read s KBSR).2.memory KBDR = s.memory KBDR ∧
      (mem_read s KBSR).2.input = [] ∧ (mem_read s KBSR).2.buffered = s.buffered) ∧
    (∀ address, address < 65536 → address ≠ KBSR →
      mem_read s address = (s.memory address, s)) := by
  have hk : w16 KBSR = KBSR := by decide
  refine ⟨?_, ?_, ?_⟩
  · intro c hb hin hc
    have hck : check_key s ≠ 0 := by
      unfold check_key
      simp [hin]
    have hg : getchar { s with memory := store s.memory KBSR (1 <<< 15) } =
        some (c % 256, { s with memory := store s.memory KBSR (1 <<< 15),
                                input := [], buffered := [] }) := by
      unfold getchar
      simp only [hb, hin]
    have hrd : mem_read s KBSR =
        ((store (store s.memory KBSR (1 <<< 15)) KBDR (c % 256)) KBSR,
          { s with memory := store (store s.memory KBSR (1 <<< 15)) KBDR (c % 256),
                   input := [], buffered := [] }) := by
      unfold mem_read
      simp only [hk, if_true, if_pos hck, hg]
    rw [hrd]
    refine ⟨rfl, rfl, ?_, rfl, rfl⟩
    show w16 (c % 256) = c
    unfold w16
    omega
  · intro hin he
    have hck : ¬ check_key s ≠ 0 := by
      unfold check_key
      simp [hin, he]
    have hrd : mem_read s KBSR = ((store s.memory KBSR 0) KBSR,
        { s with memory := store s.memory KBSR 0 }) := by
      unfold mem_read
      simp only [hk, if_true, if_neg hck]
    rw [hrd]
    exact ⟨rfl, rfl, rfl, hin, rfl⟩
  · intro address hlt hne
    rw [mem_read_of_ne s address (by rw [w16_of_lt hlt]; exact hne), w16_of_lt hlt]

/-- At end of file with nothing pending, `select` reports stdin readable: a read of
`KBSR` sets the status word to `0x8000` and latches `(u_int16_t) EOF = 0xFFFF`
in `KBDR`. -/
theorem mem_read_at_end_of_file (s : State)
    (hb : s.buffered = []) (hin : s.input = []) (he : s.eof = true) :
    (mem_read s KBSR).1 = 0x8000 ∧ (mem_read s KBSR).2.memory KBDR = 0xFFFF := by
  have hk : w16 KBSR = KBSR := by decide
  have hck : check_key s ≠ 0 := by
    unfold check_key
    simp [he]
  have hg : getchar { s with memory := store s.memory KBSR (1 <<< 15) } =
      some (EOF, { s with memory := store s.memory KBSR (1 <<< 15) }) := by
    unfold getchar
    simp only [hb, hin, he, if_true]
  have hrd : mem_read s KBSR =
      ((store (store s.memory KBSR (1 <<< 15)) KBDR EOF) KBSR,
        { s with memory := store (store s.memory KBSR (1 <<< 15)) KBDR EOF }) := by
    unfold mem_read
    simp only [hk, if_true, if_pos hck, hg]
  rw [hrd]
  exact ⟨rfl, rfl⟩

/-- C12 fails when two bytes are pending: with `'a'`, `'b'` pending on an open stdin,
the first read of `KBSR` returns `0x8000` and latches `'a'`, and `getchar ()` has
taken both bytes from the descriptor into the stream buffer; the second read of
`KBSR` finds nothing pending on the descriptor, clears the status word and
returns 0, with `KBDR` still `'a'` and `'b'` left unread in the buffer.  The
program `LDI R0, KBSR; LDI R1, KBSR; HALT` ends with `R0 = 0x8000` and `R1 = 0`. -/
theorem mem_read_second_poll_misses_buffered_byte :
    ((mem_read kbdState KBSR).1 = 0x8000 ∧
      (mem_read kbdState KBSR).2.memory KBDR = 0x61 ∧
      (mem_read kbdState KBSR).2.input = [] ∧
      (mem_read kbdState KBSR).2.buffered = [0x62]) ∧
    ((mem_read (mem_read kbdState KBSR).2 KBSR).1 = 0 ∧
      (mem_read (mem_read kbdState KBSR).2 KBSR).2.memory KBSR = 0 ∧
      (mem_read (mem_read kbdState KBSR).2 KBSR).2.memory KBDR = 0x61 ∧
      (mem_read (mem_read kbdState KBSR).2 KBSR).2.buffered = [0x62]) ∧
    ∃ s1, loop 3 0 (initState pollTwiceImage [0x61, 0x62]) = .halted 3 s1 ∧
      s1.reg R_R0 = 0x8000 ∧ s1.reg R_R1 = 0 ∧ s1.memory KBDR = 0x61 ∧
      s1.buffered = [0x62] :=
  ⟨⟨by decide, by decide, by decide, by decide⟩,
    ⟨by decide, by decide, by decide, by decide⟩,
    _, rfl, by decide, by decide, by decide, by decide⟩

/-! ## Reserved opcodes, dispatch and halting -/

theorem execute_reserved (i : Nat) (s : State) (h : i >>> 12 = OP_RTI ∨ i >>> 12 = OP_RES) :
    execute i s = .ok s := by
  unfold execute
  rcases h with h | h <;> simp [h]

/-- C14: when an instruction with a reserved opcode (8 or 13) is fetched from an
address `a` other than `KBSR`, the step changes no memory word, none of
`R0..R7` and not `COND`, writes no output, takes no input (neither from the
descriptor nor from the stream buffer), leaves `running` as
it is, and leaves `PC = (a + 1) mod 2^16`. -/
theorem reserved_opcode_is_nop (s : State) (a instr : Nat) (hwf : WF s)
    (hpc : s.reg R_PC = a) (ha : a ≠ KBSR) (hi : s.memory a = instr)
    (hop : instr >>> 12 = OP_RTI ∨ instr >>> 12 = OP_RES) :
    ∃ s1, step s = .ok s1 ∧
      (∀ b, s1.memory b = s.memory b) ∧
      (∀ r, r ≤ 7 → s1.reg r = s.reg r) ∧
      s1.reg R_COND = s.reg R_COND ∧
      s1.output = s.output ∧ s1.input = s.input ∧ s1.buffered = s.buffered ∧
      s1.running = s.running ∧
      s1.reg R_PC = (a + 1) % 65536 := by
  obtain ⟨hreg, hmem, _⟩ := hwf
  have hpclt : s.reg R_PC < 65536 := hreg R_PC (by decide)
  have hpc16 : w16 (s.reg R_PC) = s.reg R_PC := w16_of_lt hpclt
  have hilt : s.memory (s.reg R_PC) < 65536 := hmem _ hpclt
  have hf := fetch_of_ne s (by rw [hpc16, hpc]; exact ha)
  rw [hpc16, w16_of_lt hilt, hpc, hi] at hf
  unfold step
  rw [hf]
  dsimp only
  rw [execute_reserved _ _ hop]
  refine ⟨_, rfl, fun _ => rfl, ?_, rfl, rfl, rfl, rfl, rfl, rfl⟩
  intro r hr
  have h8 : r ≠ R_PC := by simp only [R_PC]; omega
  simp only [setReg, store, if_neg h8]

theorem reserved_opcode_is_nop_witness :
    ∃ s1, step resState = .ok s1 ∧ (∀ b, s1.memory b = resState.memory b) ∧
      s1.reg R_COND = resState.reg R_COND ∧ s1.output = [] ∧ s1.running = true ∧
      s1.reg R_PC = 0x3001 := by
  obtain ⟨s1, hs, hm, _, hc, ho, _, _, hr, hpc⟩ := reserved_opcode_is_nop resState 0x3000 0xD123
    (WF_initState _ _ (imageOf_lt _ (by decide)) (by simp)) (by decide) (by decide)
    (by decide) (Or.inr (by decide))
  exact ⟨s1, hs, hm, hc, by rw [ho]; rfl, by rw [hr]; rfl, by rw [hpc]⟩

theorem shift12_le (i : Nat) (h : i < 65536) : i >>> 12 ≤ 15 := by
  rw [Nat.shiftRight_eq_div_pow]
  have : i / 2 ^ 12 < 16 := by
    rw [Nat.div_lt_iff_lt_mul (by decide)]; omega
  omega

theorem puts_loop_error (m : Nat → Nat) :
    ∀ n c out e, puts_loop m n c out = .error e → e = .outOfRange := by
  intro n
  induction n with
  | zero =>
    intro c out e h
    unfold puts_loop at h
    injection h with h
    exact h.symm
  | succ n ih =>
    intro c out e h
    unfold puts_loop at h
    split at h
    · exact ih _ _ _ h
    · exact absurd h (by simp)

theorem putsp_loop_error (m : Nat → Nat) :
    ∀ n c out e, putsp_loop m n c out = .error e → e = .outOfRange := by
  intro n
  induction n with
  | zero =>
    intro c out e h
    unfold putsp_loop at h
    injection h with h
    exact h.symm
  | succ n ih =>
    intro c out e h
    unfold putsp_loop at h
    split at h
    · exact ih _ _ _ h
    · exact absurd h (by simp)

theorem op_trap_ne_aborted (i : Nat) (s : State) : op_trap i s ≠ .error .aborted := by
  unfold op_trap
  dsimp only
  split
  · split <;> simp
  · split
    · simp
    · split
      · split
        · simp
        · rename_i e heq
          intro hc
          injection hc with hc
          have := puts_loop_error _ _ _ _ _ heq
          rw [hc] at this
          exact absurd this (by decide)
      · split
        · split <;> simp
        · split
          · split
            · simp
            · rename_i e heq
              intro hc
              injection hc with hc
              have := putsp_loop_error _ _ _ _ _ heq
              rw [hc] at this
              exact absurd this (by decide)
          · split <;> simp

theorem execute_ne_aborted (i : Nat) (s : State) (h : i >>> 12 ≤ 15) :
    execute i s ≠ .error .aborted := by
  have hcases : i >>> 12 = 0 ∨ i >>> 12 = 1 ∨ i >>> 12 = 2 ∨ i >>> 12 = 3 ∨ i >>> 12 = 4 ∨
      i >>> 12 = 5 ∨ i >>> 12 = 6 ∨ i >>> 12 = 7 ∨ i >>> 12 = 8 ∨ i >>> 12 = 9 ∨
      i >>> 12 = 10 ∨ i >>> 12 = 11 ∨ i >>> 12 = 12 ∨ i >>> 12 = 13 ∨ i >>> 12 = 14 ∨
      i >>> 12 = 15 := by omega
  unfold execute
  rcases hcases with h | h | h | h | h | h | h | h | h | h | h | h | h | h | h | h <;>
    simp only [h, OP_ADD, OP_AND, OP_NOT, OP_BR, OP_JMP, OP_JSR, OP_LD, OP_LDI, OP_LDR, OP_LEA,
      OP_ST, OP_STI, OP_STR, OP_TRAP, OP_RES, OP_RTI, if_true, Nat.reduceEqDiff, if_false] <;>
    try simp
  exact op_trap_ne_aborted i s

theorem execute_and (i : Nat) (s : State) (h : i >>> 12 = OP_AND) :
    execute i s = .ok (op_and i s) := by
  unfold execute; simp [h]

theorem execute_not (i : Nat) (s : State) (h : i >>> 12 = OP_NOT) :
    execute i s = .ok (op_not i s) := by
  unfold execute; simp [h]

theorem execute_ld (i : Nat) (s : State) (h : i >>> 12 = OP_LD) :
    execute i s = .ok (op_ld i s) := by
  unfold execute; simp [h]

theorem execute_ldr (i : Nat) (s : State) (h : i >>> 12 = OP_LDR) :
    execute i s = .ok (op_ldr i s) := by
  unfold execute; simp [h]

theorem execute_lea (i : Nat) (s : State) (h : i >>> 12 = OP_LEA) :
    execute i s = .ok (op_lea i s) := by
  unfold execute; simp [h]

theorem execute_default (i : Nat) (s : State) (h : 16 ≤ i >>> 12) :
    execute i s = .error .aborted := by
  have e : ∀ k, k < 16 → ¬ (i >>> 12 = k) := fun k hk hc => by omega
  unfold execute
  dsimp only
  rw [if_neg (e OP_ADD (by decide)),
    if_neg (e OP_AND (by decide)),
    if_neg (e OP_NOT (by decide)),
    if_neg (e OP_BR (by decide)),
    if_neg (e OP_JMP (by decide)),
    if_neg (e OP_JSR (by decide)),
    if_neg (e OP_LD (by decide)),
    if_neg (e OP_LDI (by decide)),
    if_neg (e OP_LDR (by decide)),
    if_neg (e OP_LEA (by decide)),
    if_neg (e OP_ST (by decide)),
    if_neg (e OP_STI (by decide)),
    if_neg (e OP_STR (by decide)),
    if_neg (e OP_TRAP (by decide)),
    if_neg (e OP_RES (by decide)),
    if_neg (e OP_RTI (by decide))]

/-- The `switch` takes exactly one of its branches. -/
theorem execute_cases (i : Nat) (s : State) :
    execute i s = .ok (op_add i s) ∨ execute i s = .ok (op_and i s) ∨
    execute i s = .ok (op_not i s) ∨ execute i s = .ok (op_br i s) ∨
    execute i s = .ok (op_jmp i s) ∨ execute i s = .ok (op_jsr i s) ∨
    execute i s = .ok (op_ld i s) ∨ execute i s = .ok (op_ldi i s) ∨
    execute i s = .ok (op_ldr i s) ∨ execute i s = .ok (op_lea i s) ∨
    execute i s = .ok (op_st i s) ∨ execute i s = .ok (op_sti i s) ∨
    execute i s = .ok (op_str i s) ∨
    (i >>> 12 = OP_TRAP ∧ execute i s = op_trap i s) ∨
    execute i s = .ok s ∨ execute i s = .error .aborted := by
  have hcases : i >>> 12 = 0 ∨ i >>> 12 = 1 ∨ i >>> 12 = 2 ∨ i >>> 12 = 3 ∨ i >>> 12 = 4 ∨
      i >>> 12 = 5 ∨ i >>> 12 = 6 ∨ i >>> 12 = 7 ∨ i >>> 12 = 8 ∨ i >>> 12 = 9 ∨
      i >>> 12 = 10 ∨ i >>> 12 = 11 ∨ i >>> 12 = 12 ∨ i >>> 12 = 13 ∨ i >>> 12 = 14 ∨
      i >>> 12 = 15 ∨ 16 ≤ i >>> 12 := by omega
  rcases hcases with h | h | h | h | h | h | h | h | h | h | h | h | h | h | h | h | h
  · iterate 3 right
    exact Or.inl (execute_br i s h)
  · exact Or.inl (execute_add i s h)
  · iterate 6 right
    exact Or.inl (execute_ld i s h)
  · iterate 10 right
    exact Or.inl (execute_st i s h)
  · iterate 5 right
    exact Or.inl (execute_jsr i s h)
  · iterate 1 right
    exact Or.inl (execute_and i s h)
  · iterate 8 right
    exact Or.inl (execute_ldr i s h)
  · iterate 12 right
    exact Or.inl (execute_str i s h)
  · iterate 14 right
    exact Or.inl (execute_reserved i s (Or.inl h))
  · iterate 2 right
    exact Or.inl (execute_not i s h)
  · iterate 7 right
    exact Or.inl (execute_ldi i s h)
  · iterate 11 right
    exact Or.inl (execute_sti i s h)
  · iterate 4 right
    exact Or.inl (execute_jmp i s h)
  · iterate 14 right
    exact Or.inl (execute_reserved i s (Or.inr h))
  · iterate 9 right
    exact Or.inl (execute_lea i s h)
  · iterate 13 right
    exact Or.inl (⟨h, execute_trap i s h⟩)
  · iterate 15 right
    exact execute_default i s h

theorem update_flag_running (s : State) (r : Nat) : (update_flag s r).running = s.running := by
  unfold update_flag
  dsimp only
  split
  · rfl
  · split <;> rfl

theorem mem_read_running (s : State) (a : Nat) : (mem_read s a).2.running = s.running :=
  (mem_read_frame s a).2.2

theorem fetch_running (s : State) : (fetch s).2.running = s.running := by
  unfold fetch
  dsimp only
  rw [mem_read_running]
  rfl

theorem op_trap_running (i : Nat) (s s1 : State) (hs : op_trap i s = .ok s1) :
    (i &&& 0xff = TRAP_HALT → s1.running = false) ∧
    (i &&& 0xff ≠ TRAP_HALT → s1.running = s.running) := by
  unfold op_trap at hs
  dsimp only at hs
  split at hs
  · rename_i hv
    have hne : i &&& 0xff ≠ TRAP_HALT := by rw [hv]; decide
    refine ⟨fun h => absurd h hne, fun _ => ?_⟩
    split at hs
    · exact absurd hs (by simp)
    · rename_i c s2 heq
      injection hs with hs; subst hs
      rw [update_flag_running]
      exact (getchar_frame _ _ _ heq).2.2.2
  · split at hs
    · rename_i hv
      have hne : i &&& 0xff ≠ TRAP_HALT := by rw [hv]; decide
      refine ⟨fun h => absurd h hne, fun _ => ?_⟩
      injection hs with hs; subst hs; rfl
    · split at hs
      · rename_i hv
        have hne : i &&& 0xff ≠ TRAP_HALT := by rw [hv]; decide
        refine ⟨fun h => absurd h hne, fun _ => ?_⟩
        split at hs
        · injection hs with hs; subst hs; rfl
        · exact absurd hs (by simp)
      · split at hs
        · rename_i hv
          have hne : i &&& 0xff ≠ TRAP_HALT := by rw [hv]; decide
          refine ⟨fun h => absurd h hne, fun _ => ?_⟩
          split at hs
          · exact absurd hs (by simp)
          · rename_i c s2 heq
            injection hs with hs; subst hs
            rw [update_flag_running]
            exact (getchar_frame _ _ _ heq).2.2.2
        · split at hs
          · rename_i hv
            have hne : i &&& 0xff ≠ TRAP_HALT := by rw [hv]; decide
            refine ⟨fun h => absurd h hne, fun _ => ?_⟩
            split at hs
            · injection hs with hs; subst hs; rfl
            · exact absurd hs (by simp)
          · split at hs
            · rename_i hv
              refine ⟨fun _ => ?_, fun h => absurd hv h⟩
              injection hs with hs; subst hs; rfl
            · rename_i hv
              refine ⟨fun h => absurd h hv, fun _ => ?_⟩
              injection hs with hs; subst hs; rfl

theorem execute_running (i : Nat) (s s1 : State) (hs : execute i s = .ok s1)
    (hnh : ¬ (i >>> 12 = OP_TRAP ∧ i &&& 0xff = TRAP_HALT)) : s1.running = s.running := by
  rcases execute_cases i s with h | h | h | h | h | h | h | h | h | h | h | h | h | h | h | h
  all_goals try (rw [h] at hs; injection hs with hs; subst hs)
  · unfold op_add; dsimp only; rw [update_flag_running]; split <;> rfl
  · unfold op_and; dsimp only; rw [update_flag_running]; split <;> rfl
  · unfold op_not; dsimp only; rw [update_flag_running]; rfl
  · unfold op_br; dsimp only; split <;> rfl
  · rfl
  · unfold op_jsr; dsimp only; split <;> rfl
  · unfold op_ld; dsimp only; rw [update_flag_running]; exact mem_read_running _ _
  · unfold op_ldi; dsimp only; rw [update_flag_running]
    show (mem_read _ _).2.running = _
    rw [mem_read_running, mem_read_running]
  · unfold op_ldr; dsimp only; rw [update_flag_running]; exact mem_read_running _ _
  · unfold op_lea; dsimp only; rw [update_flag_running]; rfl
  · rfl
  · unfold op_sti; dsimp only; exact mem_read_running _ _
  · rfl
  · obtain ⟨hop, h⟩ := h
    rw [h] at hs
    exact (op_trap_running i s s1 hs).2 (fun hv => hnh ⟨hop, hv⟩)
  · rfl
  · rw [h] at hs; exact absurd hs (by simp)

theorem getchar_some (s : State)
    (h : s.buffered ≠ [] ∨ s.input ≠ [] ∨ s.eof = true) :
    ∃ c s1, getchar s = some (c, s1) := by
  unfold getchar
  split
  · exact ⟨_, _, rfl⟩
  · rename_i hb
    split
    · exact ⟨_, _, rfl⟩
    · rename_i hin
      split
      · exact ⟨_, _, rfl⟩
      · rename_i he
        rcases h with h | h | h
        · exact absurd hb h
        · exact absurd hin h
        · exact absurd h he

/-- The traps GETC and IN complete when `getchar ()` has something to return. -/
theorem op_trap_getc_in_ok (i : Nat) (s : State)
    (hv : i &&& 0xff = TRAP_GETC ∨ i &&& 0xff = TRAP_IN)
    (h : s.buffered ≠ [] ∨ s.input ≠ [] ∨ s.eof = true) :
    ∃ s1, op_trap i s = .ok s1 := by
  unfold op_trap
  dsimp only
  rcases hv with hv | hv
  · obtain ⟨c, s1, hg⟩ := getchar_some (setReg s R_R7 (s.reg R_PC)) h
    rw [if_pos hv, hg]
    exact ⟨_, rfl⟩
  · obtain ⟨c, s1, hg⟩ := getchar_some
      { setReg s R_R7 (s.reg R_PC) with
        output := (setReg s R_R7 (s.reg R_PC)).output ++ inPrompt } h
    rw [if_neg (by rw [hv]; decide), if_neg (by rw [hv]; decide),
      if_neg (by rw [hv]; decide), if_pos hv, hg]
    exact ⟨_, rfl⟩

/-- Every instruction other than TRAP completes. -/
theorem execute_ok_of_not_trap (i : Nat) (s : State) (hi : i >>> 12 ≤ 15)
    (hop : i >>> 12 ≠ OP_TRAP) : ∃ s1, execute i s = .ok s1 := by
  rcases execute_cases i s with h | h | h | h | h | h | h | h | h | h | h | h | h | h | h | h
  all_goals try exact ⟨_, h⟩
  · exact absurd h.1 hop
  · exact absurd h (execute_ne_aborted i s hi)

/-- C17: in a state in which the loop is running, a step clears `running` if and only
if the fetched instruction has opcode 15 (TRAP) and low byte `0x25`.  Every other
instruction leaves `running` set, and its step completes: always for an opcode
other than TRAP and for a TRAP whose vector is OUT or lies outside
`0x20 .. 0x25`; for GETC and IN when `getchar ()` has something to return; for
PUTS and PUTSP when a zero word ends the string at or after `R0`. -/
theorem loop_stops_iff_halt (s : State) (hrun : s.running = true) :
    ((∃ s1, step s = .ok s1 ∧ s1.running = false) ↔
      ((fetch s).1 >>> 12 = OP_TRAP ∧ (fetch s).1 &&& 0xff = TRAP_HALT)) ∧
    (¬ ((fetch s).1 >>> 12 = OP_TRAP ∧ (fetch s).1 &&& 0xff = TRAP_HALT) →
      ∀ s1, step s = .ok s1 → s1.running = true) ∧
    ((fetch s).1 >>> 12 ≠ OP_TRAP → ∃ s1, step s = .ok s1 ∧ s1.running = true) ∧
    ((fetch s).1 >>> 12 = OP_TRAP →
      (fetch s).1 &&& 0xff ≠ TRAP_GETC → (fetch s).1 &&& 0xff ≠ TRAP_IN →
      (fetch s).1 &&& 0xff ≠ TRAP_PUTS → (fetch s).1 &&& 0xff ≠ TRAP_PUTSP →
      (fetch s).1 &&& 0xff ≠ TRAP_HALT →
      ∃ s1, step s = .ok s1 ∧ s1.running = true) ∧
    ((fetch s).1 >>> 12 = OP_TRAP →
      (fetch s).1 &&& 0xff = TRAP_GETC ∨ (fetch s).1 &&& 0xff = TRAP_IN →
      s.buffered ≠ [] ∨ s.input ≠ [] ∨ s.eof = true →
      ∃ s1, step s = .ok s1 ∧ s1.running = true) ∧
    ((fetch s).1 >>> 12 = OP_TRAP →
      (fetch s).1 &&& 0xff = TRAP_PUTS ∨ (fetch s).1 &&& 0xff = TRAP_PUTSP →
      (∃ k, s.reg R_R0 ≤ k ∧ k ≤ 0xFFFF ∧ s.memory k = 0) →
      ∃ s1, step s = .ok s1 ∧ s1.running = true) := by
  have hkeep : ¬ ((fetch s).1 >>> 12 = OP_TRAP ∧ (fetch s).1 &&& 0xff = TRAP_HALT) →
      ∀ s1, step s = .ok s1 → s1.running = true := by
    intro hnh s1 hs
    rw [execute_running _ _ _ hs hnh, fetch_running, hrun]
  have hle : (fetch s).1 >>> 12 ≤ 15 := shift12_le _ (w16_lt _)
  refine ⟨⟨?_, ?_⟩, hkeep, ?_, ?_, ?_, ?_⟩
  · rintro ⟨s1, hs, hr⟩
    by_contra hnh
    rw [hkeep hnh s1 hs] at hr
    exact absurd hr (by decide)
  · rintro ⟨hop, hv⟩
    obtain ⟨s1, hs⟩ := op_trap_ok (fetch s).1 (fetch s).2 (by rw [hv]; decide)
      (by rw [hv]; decide) (fun h => by rw [hv] at h; exact absurd h (by decide))
    refine ⟨s1, ?_, (op_trap_running _ _ _ hs).1 hv⟩
    unfold step
    rw [execute_trap _ _ hop]
    exact hs
  · intro hop
    obtain ⟨s1, hs⟩ := execute_ok_of_not_trap (fetch s).1 (fetch s).2 hle hop
    exact ⟨s1, hs, hkeep (fun h => hop h.1) s1 hs⟩
  · intro hop h1 h2 h3 h4 h5
    obtain ⟨s1, hs⟩ := op_trap_ok (fetch s).1 (fetch s).2 h1 h2
      (fun h => h.elim (fun h => absurd h h3) (fun h => absurd h h4))
    have hstep : step s = .ok s1 := by
      unfold step
      rw [execute_trap _ _ hop]
      exact hs
    exact ⟨s1, hstep, hkeep (fun h => h5 h.2) s1 hstep⟩
  · intro hop hv hin
    have hfs := fetch_state_of_trap s hop
    obtain ⟨s1, hs⟩ := op_trap_getc_in_ok (fetch s).1 (fetch s).2 hv (by rw [hfs]; exact hin)
    have hstep : step s = .ok s1 := by
      unfold step
      rw [execute_trap _ _ hop]
      exact hs
    refine ⟨s1, hstep, hkeep (fun h => ?_) s1 hstep⟩
    rcases hv with hv | hv <;> rw [hv] at h <;> exact absurd h.2 (by decide)
  · intro hop hv hterm
    have hfs := fetch_state_of_trap s hop
    obtain ⟨s1, hs⟩ := op_trap_ok (fetch s).1 (fetch s).2
      (by rcases hv with hv | hv <;> rw [hv] <;> decide)
      (by rcases hv with hv | hv <;> rw [hv] <;> decide)
      (fun _ => by rw [hfs]; exact hterm)
    have hstep : step s = .ok s1 := by
      unfold step
      rw [execute_trap _ _ hop]
      exact hs
    refine ⟨s1, hstep, hkeep (fun h => ?_) s1 hstep⟩
    rcases hv with hv | hv <;> rw [hv] at h <;> exact absurd h.2 (by decide)

theorem loop_stops_iff_halt_witness :
    (∃ s1, step (initState haltImage []) = .ok s1 ∧ s1.running = false) ∧
      ∃ s1, step brState = .ok s1 ∧ s1.running = true :=
  ⟨(loop_stops_iff_halt (initState haltImage []) rfl).1.2 (by decide),
    (loop_stops_iff_halt brState rfl).2.2.1 (by decide)⟩

/-- C19: for every 16-bit instruction word, `instr >> 12` is one of the 16 opcode
values, and the dispatch on it never takes the `default` branch that aborts. -/
theorem dispatch_never_aborts (instr : Nat) (hi : instr < 65536) :
    instr >>> 12 ∈ [OP_BR, OP_ADD, OP_LD, OP_ST, OP_JSR, OP_AND, OP_LDR, OP_STR, OP_RTI,
      OP_NOT, OP_LDI, OP_STI, OP_JMP, OP_RES, OP_LEA, OP_TRAP] ∧
    (∀ s, execute instr s ≠ .error .aborted) ∧
    (∀ s, (fetch s).1 = instr → step s ≠ .error .aborted) := by
  have hle := shift12_le instr hi
  refine ⟨?_, fun s => execute_ne_aborted instr s hle, ?_⟩
  · simp only [List.mem_cons, List.mem_singleton, List.not_mem_nil, or_false, OP_ADD, OP_AND,
      OP_NOT, OP_BR, OP_JMP, OP_JSR, OP_LD, OP_LDI, OP_LDR, OP_LEA, OP_ST, OP_STI, OP_STR,
      OP_TRAP, OP_RES, OP_RTI]
    omega
  · intro s hf
    unfold step
    rw [hf]
    exact execute_ne_aborted instr _ hle

theorem dispatch_never_aborts_witness :
    0xD000 >>> 12 ∈ [OP_BR, OP_ADD, OP_LD, OP_ST, OP_JSR, OP_AND, OP_LDR, OP_STR, OP_RTI,
      OP_NOT, OP_LDI, OP_STI, OP_JMP, OP_RES, OP_LEA, OP_TRAP] ∧
    (∀ s, execute 0xD000 s ≠ .error .aborted) ∧
    (∀ s, (fetch s).1 = 0xD000 → step s ≠ .error .aborted) :=
  dispatch_never_aborts 0xD000 (by decide)

theorem putsp_loop_spec (m : Nat → Nat) (k : Nat) (hz : m k = 0) :
    ∀ n c out, c ≤ k → k < c + n → (∀ j, c ≤ j → j < k → m j ≠ 0) →
      putsp_loop m n c out =
        .ok (out ++ (List.range' c (k - c)).flatMap (fun a =>
          if m a / 256 % 256 ≠ 0 then [m a % 256, m a / 256 % 256] else [m a % 256])) := by
  intro n
  induction n with
  | zero => intro c out h1 h2; omega
  | succ n ih =>
    intro c out h1 h2 hmin
    unfold putsp_loop
    by_cases hck : c = k
    · subst hck
      simp [hz]
    · have hlt : c < k := by omega
      have hne := hmin c (le_refl c) hlt
      rw [if_pos hne]
      dsimp only
      rw [ih (c + 1) _ (by omega) (by omega) (fun j hj1 hj2 => hmin j (by omega) hj2)]
      have hk : k - c = (k - (c + 1)) + 1 := by omega
      have hlow : (m c &&& 0xff) % 256 = m c % 256 := by
        have : m c &&& 0xff = m c &&& (2 ^ 8 - 1) := rfl
        rw [this, Nat.and_pow_two_sub_one_eq_mod]
        simp
      have hhigh : (m c >>> 8) % 256 = m c / 256 % 256 := by
        rw [Nat.shiftRight_eq_div_pow]
      rw [hk, List.range'_succ, List.flatMap_cons, hlow, hhigh]
      split <;> simp

/-- C15: when a TRAP PUTSP instruction executes and `k` is the least address from `R0`
up to `0xFFFF` holding a zero word, the step appends to the output, for each of
the words `memory[R0], ..., memory[k-1]` in order, its low byte followed by its
high byte when the high byte is non-zero, and nothing for the zero word.  The
walk depends on no memory word outside `R0 .. k`. -/
theorem putsp_outputs_packed_string (s : State) (k : Nat)
    (hop : (fetch s).1 >>> 12 = OP_TRAP) (hv : (fetch s).1 &&& 0xff = TRAP_PUTSP)
    (hk0 : s.reg R_R0 ≤ k) (hk1 : k ≤ 0xFFFF) (hz : s.memory k = 0)
    (hmin : ∀ j, s.reg R_R0 ≤ j → j < k → s.memory j ≠ 0) :
    ∃ s1, step s = .ok s1 ∧
      s1.output = s.output ++
        (List.range' (s.reg R_R0) (k - s.reg R_R0)).flatMap (fun a =>
          if s.memory a / 256 % 256 ≠ 0 then [s.memory a % 256, s.memory a / 256 % 256]
          else [s.memory a % 256]) ∧
      (∀ m, (∀ a, s.reg R_R0 ≤ a → a ≤ k → m a = s.memory a) →
        putsp_loop m (MEM_SIZE - s.reg R_R0) (s.reg R_R0) s.output = .ok s1.output) := by
  have hfs := fetch_state_of_trap s hop
  have hloop : ∀ m, (∀ a, s.reg R_R0 ≤ a → a ≤ k → m a = s.memory a) →
      putsp_loop m (MEM_SIZE - s.reg R_R0) (s.reg R_R0) s.output = .ok (s.output ++
        (List.range' (s.reg R_R0) (k - s.reg R_R0)).flatMap (fun a =>
          if s.memory a / 256 % 256 ≠ 0 then [s.memory a % 256, s.memory a / 256 % 256]
          else [s.memory a % 256])) := by
    intro m hm
    rw [putsp_loop_spec m k (by rw [hm k hk0 (le_refl k)]; exact hz) _ _ _ hk0
      (by simp only [MEM_SIZE]; omega)
      (fun j h1 h2 => by rw [hm j h1 (by omega)]; exact hmin j h1 h2)]
    congr 2
    apply List.flatMap_congr
    intro a ha
    rw [List.mem_range'_1] at ha
    rw [hm a ha.1 (by omega)]
  refine ⟨{ setReg (setReg s R_PC (s.reg R_PC + 1)) R_R7 (w16 (s.reg R_PC + 1)) with
      output := s.output ++
        (List.range' (s.reg R_R0) (k - s.reg R_R0)).flatMap (fun a =>
          if s.memory a / 256 % 256 ≠ 0 then [s.memory a % 256, s.memory a / 256 % 256]
          else [s.memory a % 256]) },
    ?_, rfl, hloop⟩
  unfold step
  rw [execute_trap _ _ hop]
  unfold op_trap
  simp only [hv, hfs]
  have h0 : (setReg (setReg s R_PC (s.reg R_PC + 1)) R_R7
      ((setReg s R_PC (s.reg R_PC + 1)).reg R_PC)).reg R_R0 = s.reg R_R0 := rfl
  have hm : (setReg (setReg s R_PC (s.reg R_PC + 1)) R_R7
      ((setReg s R_PC (s.reg R_PC + 1)).reg R_PC)).memory = s.memory := rfl
  have ho : (setReg (setReg s R_PC (s.reg R_PC + 1)) R_R7
      ((setReg s R_PC (s.reg R_PC + 1)).reg R_PC)).output = s.output := rfl
  simp only [TRAP_PUTSP, TRAP_PUTS, TRAP_IN, TRAP_GETC, TRAP_OUT, Nat.reduceEqDiff, if_false,
    if_true]
  rw [h0, hm, ho, hloop s.memory (fun _ _ _ => rfl)]
  rfl

theorem putsp_outputs_packed_string_witness :
    ∃ s1, step putspState = .ok s1 ∧ s1.output = [0x41, 0x42, 0x43] := by
  have hr0 : putspState.reg R_R0 = 0x4000 := by decide
  obtain ⟨s1, hs, ho, _⟩ := putsp_outputs_packed_string putspState 0x4002 (by decide)
    (by decide) (by decide) (by decide) (by decide) (by
      intro j h1 h2
      rw [hr0] at h1
      have hj : j = 0x4000 ∨ j = 0x4001 := by omega
      rcases hj with rfl | rfl <;> decide)
  exact ⟨s1, hs, by rw [ho]; decide⟩
/-! ## The condition register -/

theorem update_flag_cond_valid (s : State) (r : Nat) :
    (update_flag s r).reg R_COND = FL_POS ∨ (update_flag s r).reg R_COND = FL_ZRO ∨
      (update_flag s r).reg R_COND = FL_NEG := by
  rw [update_flag_reg]
  simp only [store, if_true]
  split
  · right; left; rfl
  · split
    · right; right; rfl
    · left; rfl

theorem op_trap_cond_valid (i : Nat) (s s1 : State) (hs : op_trap i s = .ok s1)
    (hc : s.reg R_COND = FL_POS ∨ s.reg R_COND = FL_ZRO ∨ s.reg R_COND = FL_NEG) :
    s1.reg R_COND = FL_POS ∨ s1.reg R_COND = FL_ZRO ∨ s1.reg R_COND = FL_NEG := by
  by_cases h1 : i &&& 0xff = TRAP_GETC
  · unfold op_trap at hs
    simp only [if_pos h1] at hs
    split at hs
    · exact absurd hs (by simp)
    · injection hs with hs; subst hs
      exact update_flag_cond_valid _ _
  · by_cases h2 : i &&& 0xff = TRAP_IN
    · have h3 : i &&& 0xff ≠ TRAP_OUT := by rw [h2]; decide
      have h4 : i &&& 0xff ≠ TRAP_PUTS := by rw [h2]; decide
      unfold op_trap at hs
      simp only [if_neg h1, if_neg h3, if_neg h4, if_pos h2] at hs
      split at hs
      · exact absurd hs (by simp)
      · injection hs with hs; subst hs
        exact update_flag_cond_valid _ _
    · rw [op_trap_cond i s s1 h1 h2 hs]
      exact hc

theorem execute_cond_valid (i : Nat) (s s1 : State) (hs : execute i s = .ok s1)
    (hc : s.reg R_COND = FL_POS ∨ s.reg R_COND = FL_ZRO ∨ s.reg R_COND = FL_NEG) :
    s1.reg R_COND = FL_POS ∨ s1.reg R_COND = FL_ZRO ∨ s1.reg R_COND = FL_NEG := by
  rcases execute_cases i s with h | h | h | h | h | h | h | h | h | h | h | h | h | h | h | h
  all_goals try (rw [h] at hs; injection hs with hs; subst hs)
  · exact update_flag_cond_valid _ _
  · exact update_flag_cond_valid _ _
  · exact update_flag_cond_valid _ _
  · rw [op_br_cond]; exact hc
  · exact hc
  · rw [op_jsr_cond]; exact hc
  · exact update_flag_cond_valid _ _
  · exact update_flag_cond_valid _ _
  · exact update_flag_cond_valid _ _
  · exact update_flag_cond_valid _ _
  · exact hc
  · rw [op_sti_cond]; exact hc
  · exact hc
  · obtain ⟨_, h⟩ := h
    rw [h] at hs
    exact op_trap_cond_valid i s s1 hs hc
  · exact hc
  · rw [h] at hs; exact absurd hs (by simp)

theorem step_cond_valid (s s1 : State) (hs : step s = .ok s1)
    (hc : s.reg R_COND = FL_POS ∨ s.reg R_COND = FL_ZRO ∨ s.reg R_COND = FL_NEG) :
    s1.reg R_COND = FL_POS ∨ s1.reg R_COND = FL_ZRO ∨ s1.reg R_COND = FL_NEG := by
  apply execute_cond_valid _ _ _ hs
  rw [fetch_reg_cond]
  exact hc

theorem reachable_cond_valid (s : State) (h : Reachable s) :
    s.reg R_COND = FL_POS ∨ s.reg R_COND = FL_ZRO ∨ s.reg R_COND = FL_NEG := by
  induction h with
  | init image input => right; left; rfl
  | step s s1 _ hs ih => exact step_cond_valid s s1 hs ih

/-- C16: in every state reachable from the initial state, for every memory image and
every input, `COND` is exactly one of POSITIVE (1), ZERO (2), NEGATIVE (4): it is
never 0 and never a combination of flag bits. -/
theorem reachable_cond_is_one_flag (s : State) (h : Reachable s) :
    (s.reg R_COND = FL_POS ∨ s.reg R_COND = FL_ZRO ∨ s.reg R_COND = FL_NEG) ∧
    s.reg R_COND ≠ 0 ∧
    (s.reg R_COND = 1 ∨ s.reg R_COND = 2 ∨ s.reg R_COND = 4) := by
  have hv := reachable_cond_valid s h
  refine ⟨hv, ?_, hv⟩
  rcases hv with h | h | h <;> rw [h] <;> decide

theorem reachable_cond_is_one_flag_witness :
    ∃ s1, step getcState = .ok s1 ∧ s1.reg R_COND ≠ 0 ∧
      (s1.reg R_COND = 1 ∨ s1.reg R_COND = 2 ∨ s1.reg R_COND = 4) :=
  ⟨_, rfl, (reachable_cond_is_one_flag _
    (Reachable.step getcState _ (Reachable.init _ _ false) rfl)).2⟩

theorem and_seven_ne_zero (c : Nat) (hc : c = FL_POS ∨ c = FL_ZRO ∨ c = FL_NEG) :
    0b111 &&& c ≠ 0 := by
  rcases hc with h | h | h <;> rw [h] <;> decide

/-- C20: in every reachable state, a fetched BR instruction with condition mask `0b111`
is taken, `PC` becoming `(a + 1 + sign_extended (off9, 9)) mod 2^16`, and one with
condition mask `0b000` is not taken, `PC` becoming `(a + 1) mod 2^16`, where `a`
is the address it was fetched from.  (An instruction fetched from `KBSR` is the
status word 0 or `0x8000`, so a BR with mask `0b111` comes from another address.) -/
theorem reachable_br_all_or_none (s : State) (h : Reachable s) (hop : (fetch s).1 >>> 12 = OP_BR) :
    (((fetch s).1 >>> 9) &&& 0x7 = 0b111 →
      ∃ s1, step s = .ok s1 ∧
        s1.reg R_PC =
          (s.reg R_PC + 1 + sign_extended ((fetch s).1 &&& 0x1FF) 9) % 65536) ∧
    (((fetch s).1 >>> 9) &&& 0x7 = 0b000 →
      ∃ s1, step s = .ok s1 ∧ s1.reg R_PC = (s.reg R_PC + 1) % 65536) := by
  have hv := reachable_cond_valid s h
  have hc := fetch_reg_cond s
  have hpc := fetch_reg_pc s
  unfold step
  rw [execute_br _ _ hop]
  constructor
  · intro hm
    refine ⟨_, rfl, ?_⟩
    unfold op_br
    dsimp only
    rw [hm, hc, if_pos (and_seven_ne_zero _ hv)]
    show w16 ((fetch s).2.reg R_PC + _) = _
    rw [hpc]
    unfold w16; omega
  · intro hm
    refine ⟨_, rfl, ?_⟩
    unfold op_br
    dsimp only
    rw [hm, if_neg (by simp)]
    exact hpc

theorem reachable_br_all_or_none_witness :
    ∃ s1, step brAlwaysState = .ok s1 ∧ s1.reg R_PC = 0x3006 := by
  obtain ⟨s1, hs, hpc⟩ := (reachable_br_all_or_none brAlwaysState (Reachable.init _ _ false)
    (by decide)).1 (by decide)
  exact ⟨s1, hs, by rw [hpc]; decide⟩

/-! ## Image loading -/

theorem swap16_bytes (hi lo : Nat) (hhi : hi < 256) (hlo : lo < 256) :
    swap16 (hi + 256 * lo) = lo + 256 * hi := by
  unfold swap16 w16
  have h1 : (hi + 256 * lo) >>> 8 = lo := by
    rw [Nat.shiftRight_eq_div_pow]
    show (hi + 256 * lo) / 256 = lo
    omega
  have h2 : (hi + 256 * lo) <<< 8 = 2 ^ 8 * (hi + 256 * lo) := by
    rw [Nat.shiftLeft_eq, Nat.mul_comm]
  rw [h1, h2, ← Nat.mul_add_lt_is_or (by omega : lo < 2 ^ 8)]
  omega

theorem swap16_item (w : Nat) (hw : w < 65536) :
    swap16 (w / 256 % 256 + 256 * (w % 256)) = w := by
  rw [swap16_bytes _ _ (Nat.mod_lt _ (by decide)) (Nat.mod_lt _ (by decide))]
  omega

theorem fread16_words (words : List Nat) :
    ∀ count, fread16 count (words.flatMap bigEndian) =
      (words.take count).map (fun w => w / 256 % 256 + 256 * (w % 256)) := by
  induction words with
  | nil => intro count; cases count <;> simp [fread16]
  | cons w ws ih =>
    intro count
    cases count with
    | zero => simp [fread16]
    | succ n =>
      have hb : (w :: ws).flatMap bigEndian =
          (w / 256 % 256) :: (w % 256) :: ws.flatMap bigEndian := by
        rw [List.flatMap_cons]; rfl
      rw [hb]
      unfold fread16
      rw [ih n, List.take_succ_cons, List.map_cons]
      congr 1
      omega

theorem fread_store_spec (items : List Nat) :
    ∀ memory p a, fread_store memory p items a =
      if p ≤ a ∧ a < p + items.length then w16 (items.getD (a - p) 0) else memory a := by
  induction items with
  | nil =>
    intro memory p a
    have h : ¬ (p ≤ a ∧ a < p + ([] : List Nat).length) := by
      simp only [List.length_nil]; omega
    rw [if_neg h]
    rfl
  | cons x xs ih =>
    intro memory p a
    unfold fread_store
    rw [ih]
    by_cases h1 : p + 1 ≤ a ∧ a < p + 1 + xs.length
    · have h2 : p ≤ a ∧ a < p + (x :: xs).length := by simp only [List.length_cons]; omega
      rw [if_pos h1, if_pos h2]
      obtain ⟨d, hd⟩ : ∃ d, a - p = d + 1 := ⟨a - p - 1, by omega⟩
      have hd2 : a - (p + 1) = d := by omega
      rw [hd, hd2]
      simp
    · rw [if_neg h1]
      by_cases h3 : a = p
      · subst h3
        simp [store]
      · have h2 : ¬ (p ≤ a ∧ a < p + (x :: xs).length) := by
          simp only [List.length_cons]; omega
        rw [if_neg h2]
        simp [store, h3]

theorem swap_loop_spec (n : Nat) :
    ∀ memory p a, swap_loop memory n p a =
      if p ≤ a ∧ a < p + n then w16 (swap16 (memory a)) else memory a := by
  induction n with
  | zero =>
    intro memory p a
    have h : ¬ (p ≤ a ∧ a < p + 0) := by omega
    rw [if_neg h]
    rfl
  | succ n ih =>
    intro memory p a
    unfold swap_loop
    rw [ih]
    by_cases h1 : p + 1 ≤ a ∧ a < p + 1 + n
    · have h2 : p ≤ a ∧ a < p + (n + 1) := by omega
      have h3 : a ≠ p := by omega
      rw [if_pos h1, if_pos h2]
      simp [store, h3]
    · rw [if_neg h1]
      by_cases h3 : a = p
      · subst h3
        simp [store]
      · have h2 : ¬ (p ≤ a ∧ a < p + (n + 1)) := by omega
        rw [if_neg h2]
        simp [store, h3]

theorem fread16_zero (bytes : List Nat) : fread16 0 bytes = [] := by
  unfold fread16
  rfl

theorem read_image_file_imageFile (memory : Nat → Nat) (o : Nat) (words : List Nat)
    (ho : o < 65536) :
    read_image_file memory (imageFile o words) =
      some (swap_loop
        (fread_store memory o (fread16 (w16 (MEM_SIZE - o)) (words.flatMap bigEndian)))
        (fread16 (w16 (MEM_SIZE - o)) (words.flatMap bigEndian)).length o) := by
  have hfile : imageFile o words = (o / 256 % 256) :: (o % 256) :: words.flatMap bigEndian := rfl
  have h1 : fread16 1 (imageFile o words) = [o / 256 % 256 + 256 * (o % 256)] := by
    rw [hfile]
    unfold fread16
    rw [fread16_zero]
    congr 1
    omega
  unfold read_image_file
  rw [h1]
  dsimp only
  rw [swap16_item o ho, hfile]
  rfl

/-- C13 fails at origin 0: `max_size = MEM_SIZE - origin` is a `u_int16_t`, so for
origin 0 it is 0 and `read_image_file` stores no payload word at all.  With the
payload word `0x1234`, `memory[0]` stays 0. -/
theorem read_image_file_origin_zero_loads_nothing :
    (∀ memory words, read_image_file memory (imageFile 0 words) = some memory) ∧
    (∃ m, read_image_file (fun _ => 0) (imageFile 0 [0x1234]) = some m ∧ m 0 = 0 ∧
      m 0 ≠ 0x1234) := by
  have h : ∀ memory words, read_image_file memory (imageFile 0 words) = some memory := by
    intro memory words
    rw [read_image_file_imageFile memory 0 words (by decide)]
    have hz : w16 (MEM_SIZE - 0) = 0 := by decide
    rw [hz, fread16_zero]
    rfl
  exact ⟨h, _, h _ _, rfl, by decide⟩

/-- For every origin from 1 to 65535, `read_image_file` stores the payload words
that fit at `origin, origin + 1, ...` and changes no other memory word. -/
theorem read_image_file_loads (memory : Nat → Nat) (o : Nat) (words : List Nat)
    (ho1 : 1 ≤ o) (ho2 : o < 65536) (hw : ∀ w ∈ words, w < 65536) :
    ∃ m, read_image_file memory (imageFile o words) = some m ∧
      (∀ i, i < words.length → i < 65536 - o → m (o + i) = words.getD i 0) ∧
      (∀ a, a < o ∨ o + words.length ≤ a ∨ 65536 ≤ a → m a = memory a) := by
  have hmax : w16 (MEM_SIZE - o) = 65536 - o := by
    unfold w16
    simp only [MEM_SIZE]
    omega
  refine ⟨_, read_image_file_imageFile memory o words ho2, ?_, ?_⟩
  · intro i hi1 hi2
    rw [swap_loop_spec, fread_store_spec, hmax, fread16_words]
    have hlen : ((words.take (65536 - o)).map
        (fun w => w / 256 % 256 + 256 * (w % 256))).length = min (65536 - o) words.length := by
      simp
    rw [hlen]
    have hin : o ≤ o + i ∧ o + i < o + min (65536 - o) words.length := by omega
    rw [if_pos hin, if_pos hin]
    have hsub : o + i - o = i := by omega
    rw [hsub]
    have hget : ((words.take (65536 - o)).map
        (fun w => w / 256 % 256 + 256 * (w % 256))).getD i 0 =
        words.getD i 0 / 256 % 256 + 256 * (words.getD i 0 % 256) := by
      simp [List.getD_eq_getElem?_getD, List.getElem?_take, hi1, hi2]
    have hwi : words.getD i 0 < 65536 := by
      rw [List.getD_eq_getElem?_getD, List.getElem?_eq_getElem hi1]
      exact hw _ (List.getElem_mem _)
    rw [hget]
    have hlt : words.getD i 0 / 256 % 256 + 256 * (words.getD i 0 % 256) < 65536 := by omega
    rw [w16_of_lt hlt, swap16_item _ hwi, w16_of_lt hwi]
  · intro a ha
    rw [swap_loop_spec, fread_store_spec, hmax, fread16_words]
    have hlen : ((words.take (65536 - o)).map
        (fun w => w / 256 % 256 + 256 * (w % 256))).length = min (65536 - o) words.length := by
      simp
    rw [hlen]
    have hout : ¬ (o ≤ a ∧ a < o + min (65536 - o) words.length) := by omega
    rw [if_neg hout, if_neg hout]

/-! ## The string walk at the end of memory -/

/-- C18 fails for the string traps: the program `LD R0, #1; TRAP PUTS` with `0xFFFF`
loaded into `R0` and a non-zero word in the last memory cell runs one cycle, and
in the second the walk of TRAP PUTS goes on from `memory[0xFFFF]` to
`memory + 65536`, an index outside `0..65535`. -/
theorem puts_reads_past_memory_end :
    (∀ fuel, loop (fuel + 2) 0 (initState runawayImage []) = .stuck 1 .outOfRange) ∧
      ∃ s1, step (initState runawayImage []) = .ok s1 ∧ s1.reg R_R0 = 0xFFFF ∧
        s1.memory 0xFFFF ≠ 0 ∧ step s1 = .error .outOfRange :=
  ⟨fun _ => rfl, _, rfl, by decide, by decide, rfl⟩

end LC3
